import Mathlib

/-!
Shallow embedding of the colorlight firmware's frame-ingestion pipeline
(`sw_rust/barsign_disp`): the double-buffered HUB75 framebuffer
(`src/hub75.rs`), the chunked bitmap-UDP reassembler (`src/bitmap_udp.rs`),
the raw-frame classifier and the streaming flag (`src/main.rs`).

Machine integers are modelled as `Nat`/`Int` with explicit reductions
modulo `2^w` exactly where the Rust release build wraps (the firmware is a
bare-metal release build, so arithmetic overflow wraps; slice indexing out
of range still aborts, which is modelled with `Option`, `none` = panic).
Byte slices (`&[u8]`) are modelled as `List ℕ` whose elements are meant to
be `< 256`; theorems add that bound as a hypothesis where it matters.
-/

set_option maxRecDepth 4096

/-- 2^32, the modulus of `u32` arithmetic. -/
def M32 : ℕ := 4294967296

/-- 2^16, the modulus of `u16` arithmetic. -/
def M16 : ℕ := 65536

/-- `FB_TOTAL_WORDS` from `hub75.rs`: `0x00400000 / 2 / 4`. -/
def FB_TOTAL_WORDS : ℕ := 0x00400000 / 2 / 4

/-- `FB_HALF_WORDS` from `hub75.rs`: one double-buffer half, in 32-bit words. -/
def FB_HALF_WORDS : ℕ := FB_TOTAL_WORDS / 2

/-- `FB_BASE_WORDS` from `hub75.rs`: `(0x00400000 / 2) / 4`, the gateware
word address of the start of the framebuffer. -/
def FB_BASE_WORDS : ℕ := (0x00400000 / 2) / 4

/-- The gateware word base address of framebuffer half `i` (half 0 starts at
`FB_BASE_WORDS`, half 1 one half further). -/
def regionBase (i : Fin 2) : ℕ := FB_BASE_WORDS + i.val * FB_HALF_WORDS

/-- The `Hub75` driver state from `hub75.rs`.  The two SDRAM halves are
identified by `Fin 2`; `hub75_data` is the handle the CPU writes through
(back buffer), `display_buffer` the handle the hardware scans (front
buffer).  `bufs i j` is the 32-bit word at index `j` of half `i`.
`fb_base` is the hardware display base-address register, `active_buf` the
driver's `u8` record of which half the hardware reads, `width` the
hardware `ctrl.width` field and `length` the `u32` pixel-count bound. -/
structure Hub75 where
  hub75_data : Fin 2
  display_buffer : Fin 2
  bufs : Fin 2 → ℕ → ℕ
  fb_base : ℕ
  active_buf : ℕ
  width : ℕ
  length : ℕ

/-- `Hub75::new`: back buffer = half 1, front buffer = half 0, hardware
base register programmed to `FB_BASE_WORDS`, `length = 0`.  `w0` is the
reset value of the hardware width field and `c0` the indeterminate SDRAM
contents at startup; the source leaves both to the hardware. -/
def Hub75.new (w0 : ℕ) (c0 : Fin 2 → ℕ → ℕ) : Hub75 :=
  ⟨1, 0, c0, FB_BASE_WORDS, 0, w0, 0⟩

/-- `Hub75::swap_buffers`: exchange the two handles, flip `active_buf`
and reprogram the hardware base register from the new `active_buf`. -/
def Hub75.swap_buffers (h : Hub75) : Hub75 :=
  let ab := h.active_buf ^^^ 1
  { h with hub75_data := h.display_buffer
           display_buffer := h.hub75_data
           active_buf := ab
           fb_base := if ab = 1 then FB_BASE_WORDS + FB_HALF_WORDS else FB_BASE_WORDS }

/-- `Hub75::get_img_param`: the hardware width field and the configured
pixel-count bound. -/
def Hub75.get_img_param (h : Hub75) : ℕ × ℕ := (h.width, h.length)

/-- `Hub75::set_img_param`. -/
def Hub75.set_img_param (h : Hub75) (width : ℕ) (length : ℕ) : Hub75 :=
  { h with width := width % M16, length := length % M32 }

/-- 32-bit wrapping subtraction `a - b` (the firmware targets rv32, so
`usize` subtraction wraps at `2^32` in a release build). -/
def wsub32 (a b : ℕ) : ℕ := (a + M32 - b % M32) % M32

/-- The number of words actually stored by `Hub75::write_img_data`: the
`zip` of the back-buffer slice `[off..]` with the pixel iterator,
`take`n to `self.length as usize - offset` (wrapping). -/
def writeCount (len off ndata : ℕ) : ℕ :=
  min ndata (min (FB_HALF_WORDS - off) (wsub32 len off))

/-- The body of `Hub75::write_img_data` after the (in-range) slice of the
back buffer has been taken: store the first `writeCount` pixels at
consecutive indices starting at `off`, in the back-buffer half only. -/
def writeWords (h : Hub75) (off : ℕ) (data : List ℕ) : Hub75 :=
  { h with bufs := fun i j =>
      if i = h.hub75_data ∧ off ≤ j ∧ j < off + writeCount h.length off data.length
      then data.getD (j - off) 0 else h.bufs i j }

/-- `Hub75::write_img_data`: slicing `self.hub75_data[offset..]` aborts
when `offset` exceeds the half-buffer length (`none`); otherwise the
clipped words are stored. -/
def Hub75.write_img_data (h : Hub75) (off : ℕ) (data : List ℕ) : Option Hub75 :=
  if off ≤ FB_HALF_WORDS then some (writeWords h off data) else none

/-- `HEADER_SIZE` from `bitmap_udp.rs`. -/
def HEADER_SIZE : ℕ := 10

/-- `PIXELS_PER_CHUNK` from `bitmap_udp.rs`: `1462 / 3 = 487`. -/
def PIXELS_PER_CHUNK : ℕ := 1462 / 3

/-- `chunks_exact(3)` over the payload, each triple packed as
`b << 16 | g << 8 | r` (the trailing partial triple is dropped). -/
def toPixels : List ℕ → List ℕ
  | b0 :: b1 :: b2 :: rest => (b2 <<< 16 ||| b1 <<< 8 ||| b0) :: toPixels rest
  | _ => []

/-- The `BitmapStats` telemetry record from `bitmap_udp.rs`.  All `u32`
counters wrap at `M32`.  The source field `frames_partial` is called
`frames_part` here (same meaning: partial-frame swaps). -/
structure BitmapStats where
  packets_total : ℕ
  packets_valid : ℕ
  packets_bad_magic : ℕ
  packets_bad_header : ℕ
  frames_completed : ℕ
  frames_part : ℕ
  frames_dropped : ℕ
  last_frame_id : ℕ
  last_chunk_index : ℕ
  last_total_chunks : ℕ
  last_width : ℕ
  last_height : ℕ
  last_data_len : ℕ
  chunks_received : ℕ
  frame_interval_ms : ℕ
  avg_interval_ms : ℕ
  jitter_ms : ℕ

/-- `BitmapStats::new`: all zero. -/
def BitmapStats.new : BitmapStats :=
  ⟨0, 0, 0, 0, 0, 0, 0, 0, 0, 0, 0, 0, 0, 0, 0, 0, 0⟩

/-- The `BitmapReceiver` frame-assembly state from `bitmap_udp.rs`:
the tracked frame identifier, the count (not a set) of chunks received
for it, the expected total, the declared dimensions, and the timestamp
of the last completion. -/
structure BitmapReceiver where
  current_frame_id : ℕ
  chunks_count : ℕ
  total_chunks : ℕ
  width : ℕ
  height : ℕ
  last_complete_ms : ℤ
  stats : BitmapStats

/-- `BitmapReceiver::new`: the sentinel frame id `u16::MAX`. -/
def BitmapReceiver.new : BitmapReceiver :=
  ⟨65535, 0, 0, 0, 0, 0, BitmapStats.new⟩

/-- `BitmapReceiver::update_timing`: if a completion timestamp is already
recorded (`> 0`), compute the interval (i64 difference truncated to
`u32`), store it, fold it into the 7/8-weighted moving average (all in
wrapping `u32` arithmetic, shift-right by 3) and store the absolute
deviation as jitter; in every case record the new timestamp. -/
def update_timing (r : BitmapReceiver) (time_ms : ℤ) : BitmapReceiver :=
  let r1 :=
    if r.last_complete_ms > 0 then
      let interval : ℕ := ((time_ms - r.last_complete_ms) % (M32 : ℤ)).toNat
      let s1 : BitmapStats := { r.stats with frame_interval_ms := interval }
      let s2 : BitmapStats :=
        if s1.avg_interval_ms = 0 then { s1 with avg_interval_ms := interval }
        else { s1 with avg_interval_ms := (s1.avg_interval_ms * 7 + interval) % M32 / 8 }
      let avg := s2.avg_interval_ms
      { r with stats :=
          { s2 with jitter_ms := if interval > avg then interval - avg else avg - interval } }
    else r
  { r1 with last_complete_ms := time_ms }

/-- The new-frame block of `BitmapReceiver::process_packet` (source lines
144–161), entered when the frame id differs and the dimension check has
passed: if any chunks were recorded for the previous frame, either swap
the framebuffer and count a partial frame (when at least
`total.saturating_sub(2)` chunks arrived, `total > 0`) or count a dropped
frame; then reset the assembly state to the new header.  Returns the
`swapped_partial` flag together with the updated receiver and
framebuffer. -/
def handle_new_frame (r : BitmapReceiver) (hub : Hub75) (time_ms : ℤ)
    (frame_id total_chunks width height : ℕ) : Bool × BitmapReceiver × Hub75 :=
  let step : Bool × BitmapReceiver × Hub75 :=
    if r.chunks_count > 0 then
      if r.total_chunks > 0 ∧ r.chunks_count ≥ r.total_chunks - 2 then
        (true,
         update_timing
           { r with stats :=
               { r.stats with frames_part := (r.stats.frames_part + 1) % M32 } } time_ms,
         hub.swap_buffers)
      else
        (false,
         { r with stats :=
             { r.stats with frames_dropped := (r.stats.frames_dropped + 1) % M32 } },
         hub)
    else (false, r, hub)
  (step.1,
   { step.2.1 with current_frame_id := frame_id
                   chunks_count := 0
                   total_chunks := total_chunks
                   width := width
                   height := height },
   step.2.2)

/-- The tail of `BitmapReceiver::process_packet` (source lines 164–187):
write the pixel payload at `chunk_index * PIXELS_PER_CHUNK`, bump the
received count (`u16`), and report completion when this is the final
chunk index or the count has reached the stored total; `none` models the
abort of an out-of-range slice inside `write_img_data`. -/
def finish_packet (r : BitmapReceiver) (hub : Hub75) (time_ms : ℤ)
    (data : List ℕ) (chunk_index total_chunks : ℕ) (swapped : Bool) :
    Option (Bool × BitmapReceiver × Hub75) :=
  let pixels := toPixels (data.drop HEADER_SIZE)
  match hub.write_img_data (chunk_index * PIXELS_PER_CHUNK) pixels with
  | none => none
  | some hub1 =>
    let cc := (r.chunks_count + 1) % M16
    let r1 := { r with chunks_count := cc
                       stats := { r.stats with chunks_received := cc } }
    let complete : Prop := chunk_index = total_chunks - 1 ∨ r1.chunks_count ≥ r1.total_chunks
    if complete then
      let r2 := { r1 with chunks_count := 0
                          stats := { r1.stats with
                            frames_completed := (r1.stats.frames_completed + 1) % M32 } }
      some (true, update_timing r2 time_ms, hub1)
    else
      some (swapped, r1, hub1)

/-- `BitmapReceiver::process_packet` from `bitmap_udp.rs`: count the
packet, reject short payloads and bad magic, parse the 10-byte header,
reject `total = 0` or `chunk_index ≥ total`, count a valid packet; on a
frame-id change reject mismatched dimensions, otherwise settle the
previous frame and reset; finally write the pixels and report
completion.  The result is `(should_swap, receiver, framebuffer)`;
`none` models a panic. -/
def process_packet (r : BitmapReceiver) (data : List ℕ) (hub : Hub75) (time_ms : ℤ) :
    Option (Bool × BitmapReceiver × Hub75) :=
  let s0 := { r.stats with packets_total := (r.stats.packets_total + 1) % M32
                           last_data_len := data.length % M16 }
  if data.length < HEADER_SIZE then
    some (false,
      { r with stats := { s0 with packets_bad_header := (s0.packets_bad_header + 1) % M32 } },
      hub)
  else if data.getD 0 0 ≠ 0x42 ∨ data.getD 1 0 ≠ 0x4D then
    some (false,
      { r with stats := { s0 with packets_bad_magic := (s0.packets_bad_magic + 1) % M32 } },
      hub)
  else
    let frame_id := data.getD 2 0 + 256 * data.getD 3 0
    let chunk_index := data.getD 4 0
    let total_chunks := data.getD 5 0
    let width := data.getD 6 0 + 256 * data.getD 7 0
    let height := data.getD 8 0 + 256 * data.getD 9 0
    let s1 := { s0 with last_frame_id := frame_id
                        last_chunk_index := chunk_index
                        last_total_chunks := total_chunks
                        last_width := width
                        last_height := height }
    if total_chunks = 0 ∨ chunk_index ≥ total_chunks then
      some (false,
        { r with stats := { s1 with packets_bad_header := (s1.packets_bad_header + 1) % M32 } },
        hub)
    else
      let s2 := { s1 with packets_valid := (s1.packets_valid + 1) % M32 }
      let r2 := { r with stats := s2 }
      if frame_id ≠ r.current_frame_id then
        let p := hub.get_img_param
        if p.1 ≠ 0 ∧ (width ≠ p.1 ∨ width * height ≠ p.2) then
          some (false,
            { r2 with stats :=
                { s2 with packets_bad_header := (s2.packets_bad_header + 1) % M32 } },
            hub)
        else
          let step := handle_new_frame r2 hub time_ms frame_id total_chunks width height
          finish_packet step.2.1 step.2.2 time_ms data chunk_index total_chunks step.1
      else
        finish_packet r2 hub time_ms data chunk_index total_chunks false

/-- Feed a list of packets through `process_packet` at a fixed tick,
counting how many calls reported a swap/completion (`true`). -/
def runPackets (r : BitmapReceiver) (hub : Hub75) (time_ms : ℤ) :
    List (List ℕ) → Option (ℕ × BitmapReceiver × Hub75)
  | [] => some (0, r, hub)
  | p :: ps =>
    match process_packet r p hub time_ms with
    | none => none
    | some (b, r1, hub1) =>
      match runPackets r1 hub1 time_ms ps with
      | none => none
      | some (n, r2, hub2) => some ((if b then 1 else 0) + n, r2, hub2)

/-- A well-formed bitmap-UDP payload: magic `0x42 0x4D`, little-endian
frame id, chunk index, total, little-endian width and height, then the
pixel bytes. -/
def mkPacket (fid ci tot w h : ℕ) (px : List ℕ) : List ℕ :=
  [0x42, 0x4D, fid % 256, fid / 256, ci, tot, w % 256, w / 256, h % 256, h / 256] ++ px

/-- `is_bitmap_udp` from `main.rs`: the raw-frame classifier for the
bitmap ingestion fast path. -/
def is_bitmap_udp (frame : List ℕ) : Bool :=
  decide (frame.length ≥ 52)
    && (frame.getD 12 0 == 0x08) && (frame.getD 13 0 == 0x00)
    && ((frame.getD 14 0) &&& 0x0F == 5)
    && (frame.getD 23 0 == 17)
    && (frame.getD 36 0 == 0x1B) && (frame.getD 37 0 == 0x58)

/-- The streaming flag computed each scheduler iteration in `main.rs`:
`time_ms - last_bitmap_packet_ms < 200`. -/
def streaming (time_ms last_bitmap_packet_ms : ℤ) : Bool :=
  decide (time_ms - last_bitmap_packet_ms < 200)

/-- The framebuffer coherence invariant: the two handles are distinct,
`active_buf` records the front half, and the hardware base register
points at the front half. -/
def Hub75.inv (h : Hub75) : Prop :=
  h.hub75_data ≠ h.display_buffer ∧
  h.active_buf = h.display_buffer.val ∧
  h.fb_base = regionBase h.display_buffer

/-! ### Basic facts about the embedded operations -/

theorem byteD_lt (f : List ℕ) (hB : ∀ b ∈ f, b < 256) (n : ℕ) : f.getD n 0 < 256 := by
  rcases Nat.lt_or_ge n f.length with h | h
  · rw [List.getD_eq_getElem f 0 h]
    exact hB _ (f.getElem_mem h)
  · rw [List.getD_eq_default f 0 h]
    omega

theorem toPixels_length : (l : List ℕ) → (toPixels l).length = l.length / 3
  | _ :: _ :: _ :: rest => by
      simp only [toPixels, List.length_cons, toPixels_length rest]
      omega
  | [] => rfl
  | [_] => by simp [toPixels]
  | [_, _] => by simp [toPixels]

theorem wsub32_of_le (a b : ℕ) (h : b ≤ a) (ha : a < M32) : wsub32 a b = a - b := by
  unfold wsub32 M32 at *
  omega

theorem writeCount_of_fits (len off ndata : ℕ) (hfit : off + ndata ≤ len)
    (hlen : len < M32) (hhalf : off + ndata ≤ FB_HALF_WORDS) :
    writeCount len off ndata = ndata := by
  unfold writeCount
  rw [wsub32_of_le len off (by omega) hlen]
  omega

theorem writeWords_hub75_data (h : Hub75) (off : ℕ) (d : List ℕ) :
    (writeWords h off d).hub75_data = h.hub75_data := rfl

theorem writeWords_display_buffer (h : Hub75) (off : ℕ) (d : List ℕ) :
    (writeWords h off d).display_buffer = h.display_buffer := rfl

theorem writeWords_length (h : Hub75) (off : ℕ) (d : List ℕ) :
    (writeWords h off d).length = h.length := rfl

theorem writeWords_width (h : Hub75) (off : ℕ) (d : List ℕ) :
    (writeWords h off d).width = h.width := rfl

theorem writeWords_bufs_out (h : Hub75) (off : ℕ) (d : List ℕ) (i : Fin 2) (j : ℕ)
    (hout : ¬(i = h.hub75_data ∧ off ≤ j ∧ j < off + writeCount h.length off d.length)) :
    (writeWords h off d).bufs i j = h.bufs i j := by
  simp only [writeWords, hout, if_false]

theorem writeWords_bufs_in (h : Hub75) (off : ℕ) (d : List ℕ) (k : ℕ)
    (hk : k < writeCount h.length off d.length) :
    (writeWords h off d).bufs h.hub75_data (off + k) = d.getD k 0 := by
  show (if h.hub75_data = h.hub75_data ∧ off ≤ off + k ∧
          off + k < off + writeCount h.length off d.length
        then d.getD (off + k - off) 0 else h.bufs h.hub75_data (off + k)) = d.getD k 0
  rw [if_pos ⟨rfl, by omega, by omega⟩, Nat.add_sub_cancel_left]

theorem update_timing_current (r : BitmapReceiver) (t : ℤ) :
    (update_timing r t).current_frame_id = r.current_frame_id := by
  unfold update_timing
  split <;> rfl

theorem update_timing_chunks_count (r : BitmapReceiver) (t : ℤ) :
    (update_timing r t).chunks_count = r.chunks_count := by
  unfold update_timing
  split <;> rfl

theorem update_timing_total_chunks (r : BitmapReceiver) (t : ℤ) :
    (update_timing r t).total_chunks = r.total_chunks := by
  unfold update_timing
  split <;> rfl

theorem update_timing_width (r : BitmapReceiver) (t : ℤ) :
    (update_timing r t).width = r.width := by
  unfold update_timing
  split <;> rfl

theorem update_timing_height (r : BitmapReceiver) (t : ℤ) :
    (update_timing r t).height = r.height := by
  unfold update_timing
  split <;> rfl

theorem update_timing_last (r : BitmapReceiver) (t : ℤ) :
    (update_timing r t).last_complete_ms = t := by
  unfold update_timing
  split <;> rfl

theorem update_timing_frames_part (r : BitmapReceiver) (t : ℤ) :
    (update_timing r t).stats.frames_part = r.stats.frames_part := by
  unfold update_timing
  split
  · dsimp only
    split <;> rfl
  · rfl

theorem update_timing_frames_dropped (r : BitmapReceiver) (t : ℤ) :
    (update_timing r t).stats.frames_dropped = r.stats.frames_dropped := by
  unfold update_timing
  split
  · dsimp only
    split <;> rfl
  · rfl

theorem update_timing_frames_completed (r : BitmapReceiver) (t : ℤ) :
    (update_timing r t).stats.frames_completed = r.stats.frames_completed := by
  unfold update_timing
  split
  · dsimp only
    split <;> rfl
  · rfl

/-! ### Concrete states reused by several claims -/

/-- A freshly constructed framebuffer whose width field reset value is 0
(the dimension check in `process_packet` is skipped while `width = 0`)
and whose SDRAM contents start as zeros. -/
def hub0 : Hub75 := Hub75.new 0 (fun _ _ => 0)

/-- A configured framebuffer: back buffer half 1, front half 0, zeroed
contents, `width = 0` (dimension check skipped), pixel bound 1000. -/
def hubW : Hub75 := ⟨1, 0, fun _ _ => 0, 0, 0, 0, 1000⟩

/-- A framebuffer whose pixel-count bound is 1, used to exercise the
write-clipping boundary. -/
def hubC5 : Hub75 := ⟨1, 0, fun _ _ => 0, 0, 0, 0, 1⟩

/-- A receiver that has already completed a frame at tick 1 and whose
moving average sits at `2^29`. -/
def rC9 : BitmapReceiver :=
  { BitmapReceiver.new with
      last_complete_ms := 1
      stats := { BitmapStats.new with avg_interval_ms := 536870912 } }

/-! ### Claim C6: the frame classifier -/

/-- Claim C6: `is_bitmap_udp` is a pure function of the raw frame bytes
returning `true` iff the frame is at least 52 bytes long, the Ethernet
type field (bytes 12–13, big-endian) is `0x0800` (IPv4), the IPv4
header-length nibble equals 5 (no options), the IPv4 protocol byte is 17
(UDP), and the UDP destination port (bytes 36–37, big-endian) is 7000;
every other frame yields `false`. -/
theorem c6_classifier (f : List ℕ) (hB : ∀ b ∈ f, b < 256) :
    is_bitmap_udp f = true ↔
      (52 ≤ f.length ∧
       f.getD 12 0 * 256 + f.getD 13 0 = 0x0800 ∧
       f.getD 14 0 % 16 = 5 ∧
       f.getD 23 0 = 17 ∧
       f.getD 36 0 * 256 + f.getD 37 0 = 7000) := by
  have h13 := byteD_lt f hB 13
  have h14 := byteD_lt f hB 14
  have h37 := byteD_lt f hB 37
  have hand : f.getD 14 0 &&& 15 = f.getD 14 0 % 16 :=
    Nat.and_pow_two_sub_one_eq_mod (f.getD 14 0) 4
  simp only [is_bitmap_udp, Bool.and_eq_true, beq_iff_eq, decide_eq_true_eq, ge_iff_le, hand]
  omega

/-- A concrete 52-byte IPv4/UDP frame to port 7000. -/
def c6frame : List ℕ :=
  [0, 1, 2, 3, 4, 5, 6, 7, 8, 9, 10, 11,
   0x08, 0x00, 0x45, 0, 0, 0, 0, 0, 0, 0, 0, 17,
   0, 0, 0, 0, 0, 0, 0, 0, 0, 0, 0, 0,
   0x1B, 0x58, 0, 0, 0, 0, 0x42, 0x4D, 0, 0, 0, 1, 0, 0, 0, 0]

theorem c6_classifier_witness :
    is_bitmap_udp c6frame = true ↔
      (52 ≤ c6frame.length ∧
       c6frame.getD 12 0 * 256 + c6frame.getD 13 0 = 0x0800 ∧
       c6frame.getD 14 0 % 16 = 5 ∧
       c6frame.getD 23 0 = 17 ∧
       c6frame.getD 36 0 * 256 + c6frame.getD 37 0 = 7000) :=
  c6_classifier c6frame (by decide)

/-! ### Claim C7: the streaming window -/

/-- Claim C7: with `T` the tick of the last accepted bitmap packet and
`t ≥ T` the current tick, the scheduler's `streaming` flag is set iff
`t` lies in `[T, T + 199]`; from `T + 200` on it is clear. -/
theorem c7_streaming_window (t T : ℤ) (h : T ≤ t) :
    (streaming t T = true ↔ (T ≤ t ∧ t ≤ T + 199)) ∧
    (T + 200 ≤ t → streaming t T = false) := by
  simp only [streaming, decide_eq_true_eq, decide_eq_false_iff_not]
  omega

theorem c7_streaming_window_witness :
    (streaming 199 0 = true ↔ ((0 : ℤ) ≤ 199 ∧ (199 : ℤ) ≤ 0 + 199)) ∧
    ((0 : ℤ) + 200 ≤ 199 → streaming 199 0 = false) :=
  c7_streaming_window 199 0 (by decide)

/-! ### Claim C8: buffer swapping -/

/-- Claim C8: `swap_buffers` is an involution on the write-side and
display-side role assignment, the invariant "the hardware base-address
register points at the base of the display-side half" holds after
construction, and every single `swap_buffers` call preserves it (the
register and the roles change together). -/
theorem hub75_new_inv (w0 : ℕ) (c0 : Fin 2 → ℕ → ℕ) : Hub75.inv (Hub75.new w0 c0) := by
  unfold Hub75.inv Hub75.new regionBase
  exact ⟨by simp, rfl, by norm_num⟩

theorem c8_swap_involution (w0 : ℕ) (c0 : Fin 2 → ℕ → ℕ) (h : Hub75)
    (hInv : Hub75.inv h) :
    Hub75.inv (Hub75.new w0 c0) ∧
    Hub75.inv h.swap_buffers ∧
    h.swap_buffers.swap_buffers.hub75_data = h.hub75_data ∧
    h.swap_buffers.swap_buffers.display_buffer = h.display_buffer := by
  refine ⟨hub75_new_inv w0 c0, ?_, rfl, rfl⟩
  obtain ⟨a, b, bufs, fb, ab, w, len⟩ := h
  obtain ⟨hd, ha, hb⟩ := hInv
  simp only [Hub75.swap_buffers, Hub75.inv, regionBase] at *
  fin_cases a <;> fin_cases b <;> simp_all [FB_BASE_WORDS, FB_HALF_WORDS, FB_TOTAL_WORDS]

theorem hub0_inv : Hub75.inv hub0 := by
  unfold Hub75.inv hub0 Hub75.new regionBase
  exact ⟨by decide, rfl, by norm_num⟩

theorem c8_swap_involution_witness :
    Hub75.inv (Hub75.new 0 (fun _ _ => 0)) ∧
    Hub75.inv hub0.swap_buffers ∧
    hub0.swap_buffers.swap_buffers.hub75_data = hub0.hub75_data ∧
    hub0.swap_buffers.swap_buffers.display_buffer = hub0.display_buffer :=
  c8_swap_involution 0 (fun _ _ => 0) hub0 hub0_inv

/-! ### Claim C1: counterexample -/

/-- Claim C1 counterexample.  First conjunct: feeding the single
well-formed chunk `(frame 1, index 1 of 2)` to a fresh receiver already
reports completion (`1` swap signal), although the accumulated set of
received indices is `{1}`, not `{0, 1}` — completion is keyed to the
arrival of the final chunk index, not to set coverage.  Second conjunct:
for frame identifier 65535 (the sentinel), the two chunks `0` and `1` of
a 2-chunk frame, each presented exactly once, produce **two** completion
reports, not one. -/
theorem c1_counterexample :
    (runPackets BitmapReceiver.new hub0 0 [mkPacket 1 1 2 0 0 []]).map
        (fun x => x.1) = some 1 ∧
    (runPackets BitmapReceiver.new hub0 0
        [mkPacket 65535 0 2 0 0 [], mkPacket 65535 1 2 0 0 []]).map
        (fun x => x.1) = some 2 := by
  constructor <;> rfl

/-! ### Claim C2: counterexample -/

/-- Claim C2 counterexample.  First conjunct: a packet declaring
`total = 33 > 32` is *not* rejected: it resets the assembly state
(the tracked frame id becomes 1 and the expected total 33) and the
bad-header counter stays 0.  Second conjunct: even a genuinely malformed
packet (`total = 0`) increments the `packets_total` counter, so the
bad-header counter is not the only statistics counter that changes. -/
theorem c2_counterexample :
    (process_packet BitmapReceiver.new (mkPacket 1 0 33 0 0 []) hub0 0).map
        (fun x => (x.2.1.total_chunks, x.2.1.current_frame_id,
                   x.2.1.stats.packets_bad_header)) = some (33, 1, 0) ∧
    (process_packet BitmapReceiver.new (mkPacket 1 0 0 0 0 []) hub0 0).map
        (fun x => x.2.1.stats.packets_total) = some 1 := by
  constructor <;> rfl

/-! ### Claim C3: counterexample -/

/-- Claim C3 counterexample.  Feeding chunk 0 twice and then chunk 1 of a
3-chunk frame: after the duplicate the received-chunk record is 2, not 1
(the duplicate is *not* idempotent), and the third packet reports
completion although chunk 2 never arrived. -/
theorem c3_counterexample :
    (runPackets BitmapReceiver.new hub0 0
        [mkPacket 1 0 3 0 0 [], mkPacket 1 0 3 0 0 []]).map
        (fun x => x.2.1.chunks_count) = some 2 ∧
    (runPackets BitmapReceiver.new hub0 0
        [mkPacket 1 0 3 0 0 [], mkPacket 1 0 3 0 0 [], mkPacket 1 1 3 0 0 []]).map
        (fun x => x.1) = some 1 := by
  constructor <;> rfl

/-! ### Claim C5: the framebuffer write bound -/

/-- Claim C5 counterexample.  On a framebuffer whose configured
pixel-count bound is 1, writing one pixel at offset 2 stores it at
write-side index 2 — beyond the bound: with `offset > length` the Rust
expression `self.length as usize - offset` wraps, so the write is *not*
clipped to the configured bound. -/
theorem c5_counterexample :
    (Hub75.write_img_data hubC5 2 [7]).map (fun h => h.bufs 1 2) = some 7 ∧
    hubC5.length = 1 ∧ hubC5.hub75_data = 1 := by
  refine ⟨rfl, rfl, rfl⟩

/-- Claim C5 (amended): for every offset within the half-buffer size,
`write_img_data` succeeds, never touches the display-side half, never
writes below the offset, never writes beyond the half-buffer, and — when
the offset is within the configured pixel-count bound — never writes at
or beyond that bound.  (When the offset exceeds the bound the wrapping
subtraction defeats the clip, as the counterexample shows, and an offset
beyond the half-buffer size panics.) -/
theorem c5_amended_write_clip (h : Hub75) (off : ℕ) (data : List ℕ)
    (hoff : off ≤ FB_HALF_WORDS) (hlen : h.length < M32)
    (hdisj : h.hub75_data ≠ h.display_buffer) :
    ∃ h', h.write_img_data off data = some h' ∧
      h'.hub75_data = h.hub75_data ∧
      h'.display_buffer = h.display_buffer ∧
      h'.length = h.length ∧
      (∀ j, h'.bufs h.display_buffer j = h.bufs h.display_buffer j) ∧
      (∀ j, j < off → h'.bufs h.hub75_data j = h.bufs h.hub75_data j) ∧
      (∀ j, FB_HALF_WORDS ≤ j → h'.bufs h.hub75_data j = h.bufs h.hub75_data j) ∧
      (off ≤ h.length → ∀ j, h.length ≤ j →
        h'.bufs h.hub75_data j = h.bufs h.hub75_data j) ∧
      (∀ off2, FB_HALF_WORDS < off2 → h.write_img_data off2 data = none) := by
  refine ⟨writeWords h off data, ?_, rfl, rfl, rfl, ?_, ?_, ?_, ?_, ?_⟩
  · unfold Hub75.write_img_data
    rw [if_pos hoff]
  · intro j
    exact writeWords_bufs_out h off data _ j (by
      rintro ⟨he, -⟩
      exact hdisj he.symm)
  · intro j hj
    exact writeWords_bufs_out h off data _ j (by omega)
  · intro j hj
    refine writeWords_bufs_out h off data _ j ?_
    have hwc : writeCount h.length off data.length ≤ FB_HALF_WORDS - off := by
      unfold writeCount
      omega
    omega
  · intro hol j hj
    refine writeWords_bufs_out h off data _ j ?_
    have hwc : writeCount h.length off data.length ≤ h.length - off := by
      unfold writeCount
      rw [wsub32_of_le h.length off hol hlen]
      omega
    omega
  · intro off2 h2
    unfold Hub75.write_img_data
    rw [if_neg (by omega)]

theorem c5_amended_write_clip_witness :
    ∃ h', hubW.write_img_data 3 [7, 8, 9] = some h' ∧
      h'.hub75_data = hubW.hub75_data ∧
      h'.display_buffer = hubW.display_buffer ∧
      h'.length = hubW.length ∧
      (∀ j, h'.bufs hubW.display_buffer j = hubW.bufs hubW.display_buffer j) ∧
      (∀ j, j < 3 → h'.bufs hubW.hub75_data j = hubW.bufs hubW.hub75_data j) ∧
      (∀ j, FB_HALF_WORDS ≤ j → h'.bufs hubW.hub75_data j = hubW.bufs hubW.hub75_data j) ∧
      (3 ≤ hubW.length → ∀ j, hubW.length ≤ j →
        h'.bufs hubW.hub75_data j = hubW.bufs hubW.hub75_data j) ∧
      (∀ off2, FB_HALF_WORDS < off2 → hubW.write_img_data off2 [7, 8, 9] = none) :=
  c5_amended_write_clip hubW 3 [7, 8, 9] (by norm_num [FB_HALF_WORDS, FB_TOTAL_WORDS])
    (by norm_num [hubW, M32]) (by decide)

/-! ### Claim C9: completion-interval statistics -/

/-- Claim C9 counterexample.  With the stored moving average at `2^29`
and a new interval of `2^29`, the code computes
`(7 * 2^29 + 2^29) % 2^32 >> 3 = 0`, not `⌊(7 * 2^29 + 2^29) / 8⌋ = 2^29`
(the `u32` multiply-accumulate wraps), and the jitter becomes `2^29`
instead of `0`. -/
theorem c9_counterexample :
    (update_timing rC9 536870913).stats.frame_interval_ms = 536870912 ∧
    (update_timing rC9 536870913).stats.avg_interval_ms = 0 ∧
    (rC9.stats.avg_interval_ms * 7 + 536870912) / 8 = 536870912 ∧
    (update_timing rC9 536870913).stats.jitter_ms = 536870912 := by
  refine ⟨rfl, rfl, rfl, rfl⟩

/-- Claim C9 (amended): on a completion with a positive stored timestamp,
with `d` the new inter-completion interval (the i64 difference truncated
to `u32`): the most-recent-interval statistic becomes `d`; the moving
average becomes `d` if it was 0, and otherwise
`((7 * avg + d) mod 2^32) / 8` — which equals the exact
`⌊(7 * avg + d) / 8⌋` whenever the multiply-accumulate does not exceed
`u32` range; the jitter becomes the absolute difference between `d` and
the updated average; and the stored timestamp becomes the new time. -/
theorem c9_amended_timing (r : BitmapReceiver) (t : ℤ)
    (h : r.last_complete_ms > 0) :
    (update_timing r t).stats.frame_interval_ms
        = ((t - r.last_complete_ms) % (M32 : ℤ)).toNat ∧
    (update_timing r t).stats.avg_interval_ms
        = (if r.stats.avg_interval_ms = 0
           then ((t - r.last_complete_ms) % (M32 : ℤ)).toNat
           else (r.stats.avg_interval_ms * 7
                 + ((t - r.last_complete_ms) % (M32 : ℤ)).toNat) % M32 / 8) ∧
    (r.stats.avg_interval_ms ≠ 0 →
      r.stats.avg_interval_ms * 7 + ((t - r.last_complete_ms) % (M32 : ℤ)).toNat < M32 →
      (update_timing r t).stats.avg_interval_ms
        = (r.stats.avg_interval_ms * 7
           + ((t - r.last_complete_ms) % (M32 : ℤ)).toNat) / 8) ∧
    (update_timing r t).stats.jitter_ms
        = max ((t - r.last_complete_ms) % (M32 : ℤ)).toNat
              ((update_timing r t).stats.avg_interval_ms)
          - min ((t - r.last_complete_ms) % (M32 : ℤ)).toNat
              ((update_timing r t).stats.avg_interval_ms) ∧
    (update_timing r t).last_complete_ms = t := by
  unfold update_timing
  rw [if_pos h]
  dsimp only
  split
  · rename_i havg
    refine ⟨rfl, rfl, by intro hne; exact absurd havg hne, ?_, rfl⟩
    dsimp only
    split <;> omega
  · rename_i havg
    refine ⟨rfl, rfl, ?_, ?_, rfl⟩
    · intro _ hlt
      rw [Nat.mod_eq_of_lt hlt]
    · dsimp only
      split <;> omega

theorem c9_amended_timing_witness :
    (update_timing rC9 11).stats.frame_interval_ms
        = (((11 : ℤ) - rC9.last_complete_ms) % (M32 : ℤ)).toNat ∧
    (update_timing rC9 11).stats.avg_interval_ms
        = (if rC9.stats.avg_interval_ms = 0
           then (((11 : ℤ) - rC9.last_complete_ms) % (M32 : ℤ)).toNat
           else (rC9.stats.avg_interval_ms * 7
                 + (((11 : ℤ) - rC9.last_complete_ms) % (M32 : ℤ)).toNat) % M32 / 8) ∧
    (rC9.stats.avg_interval_ms ≠ 0 →
      rC9.stats.avg_interval_ms * 7 + (((11 : ℤ) - rC9.last_complete_ms) % (M32 : ℤ)).toNat < M32 →
      (update_timing rC9 11).stats.avg_interval_ms
        = (rC9.stats.avg_interval_ms * 7
           + (((11 : ℤ) - rC9.last_complete_ms) % (M32 : ℤ)).toNat) / 8) ∧
    (update_timing rC9 11).stats.jitter_ms
        = max (((11 : ℤ) - rC9.last_complete_ms) % (M32 : ℤ)).toNat
              ((update_timing rC9 11).stats.avg_interval_ms)
          - min (((11 : ℤ) - rC9.last_complete_ms) % (M32 : ℤ)).toNat
              ((update_timing rC9 11).stats.avg_interval_ms) ∧
    (update_timing rC9 11).last_complete_ms = 11 :=
  c9_amended_timing rC9 11 (by decide)

/-! ### Reduction lemmas for `process_packet` -/

theorem mkPacket_length (F i T w h : ℕ) (px : List ℕ) :
    (mkPacket F i T w h px).length = 10 + px.length := by
  simp [mkPacket]
  omega

theorem mkPacket_fid (F i T w h : ℕ) (px : List ℕ) :
    (mkPacket F i T w h px).getD 2 0 + 256 * (mkPacket F i T w h px).getD 3 0 = F := by
  show F % 256 + 256 * (F / 256) = F
  exact Nat.mod_add_div F 256

theorem mkPacket_ci (F i T w h : ℕ) (px : List ℕ) :
    (mkPacket F i T w h px).getD 4 0 = i := rfl

theorem mkPacket_tot (F i T w h : ℕ) (px : List ℕ) :
    (mkPacket F i T w h px).getD 5 0 = T := rfl

theorem mkPacket_w (F i T w h : ℕ) (px : List ℕ) :
    (mkPacket F i T w h px).getD 6 0 + 256 * (mkPacket F i T w h px).getD 7 0 = w := by
  show w % 256 + 256 * (w / 256) = w
  exact Nat.mod_add_div w 256

theorem mkPacket_h (F i T w h : ℕ) (px : List ℕ) :
    (mkPacket F i T w h px).getD 8 0 + 256 * (mkPacket F i T w h px).getD 9 0 = h := by
  show h % 256 + 256 * (h / 256) = h
  exact Nat.mod_add_div h 256

theorem mkPacket_drop (F i T w h : ℕ) (px : List ℕ) :
    (mkPacket F i T w h px).drop 10 = px := rfl

theorem PIXELS_PER_CHUNK_eq : PIXELS_PER_CHUNK = 487 := rfl

theorem HEADER_SIZE_eq : HEADER_SIZE = 10 := rfl

theorem one_mod_M16 : (0 + 1) % M16 = 1 := rfl

theorem FB_HALF_WORDS_eq : FB_HALF_WORDS = 262144 := rfl

theorem finish_packet_complete (r : BitmapReceiver) (hub : Hub75) (t : ℤ)
    (data : List ℕ) (ci tot : ℕ) (sw : Bool)
    (hoff : ci * PIXELS_PER_CHUNK ≤ FB_HALF_WORDS)
    (hcomp : ci = tot - 1 ∨ (r.chunks_count + 1) % M16 ≥ r.total_chunks) :
    finish_packet r hub t data ci tot sw =
      some (true,
        update_timing
          { r with chunks_count := 0
                   stats := { r.stats with
                     chunks_received := (r.chunks_count + 1) % M16
                     frames_completed := (r.stats.frames_completed + 1) % M32 } } t,
        writeWords hub (ci * PIXELS_PER_CHUNK) (toPixels (data.drop HEADER_SIZE))) := by
  unfold finish_packet Hub75.write_img_data
  dsimp only
  rw [if_pos hoff]
  dsimp only
  rw [if_pos hcomp]

theorem finish_packet_incomplete (r : BitmapReceiver) (hub : Hub75) (t : ℤ)
    (data : List ℕ) (ci tot : ℕ) (sw : Bool)
    (hoff : ci * PIXELS_PER_CHUNK ≤ FB_HALF_WORDS)
    (hcomp : ¬(ci = tot - 1 ∨ (r.chunks_count + 1) % M16 ≥ r.total_chunks)) :
    finish_packet r hub t data ci tot sw =
      some (sw,
        { r with chunks_count := (r.chunks_count + 1) % M16
                 stats := { r.stats with chunks_received := (r.chunks_count + 1) % M16 } },
        writeWords hub (ci * PIXELS_PER_CHUNK) (toPixels (data.drop HEADER_SIZE))) := by
  unfold finish_packet Hub75.write_img_data
  dsimp only
  rw [if_pos hoff]
  dsimp only
  rw [if_neg hcomp]

theorem handle_new_frame_empty (r : BitmapReceiver) (hub : Hub75) (t : ℤ)
    (F T w ht : ℕ) (h0 : r.chunks_count = 0) :
    handle_new_frame r hub t F T w ht =
      (false,
       { r with current_frame_id := F
                chunks_count := 0
                total_chunks := T
                width := w
                height := ht },
       hub) := by
  unfold handle_new_frame
  dsimp only
  rw [if_neg (by omega)]

theorem handle_new_frame_swap (r : BitmapReceiver) (hub : Hub75) (t : ℤ)
    (F T w ht : ℕ) (hpos : 0 < r.chunks_count) (htot : 0 < r.total_chunks)
    (hge : r.total_chunks - 2 ≤ r.chunks_count) :
    handle_new_frame r hub t F T w ht =
      (true,
       { update_timing
           { r with stats :=
               { r.stats with frames_part := (r.stats.frames_part + 1) % M32 } } t with
         current_frame_id := F
         chunks_count := 0
         total_chunks := T
         width := w
         height := ht },
       hub.swap_buffers) := by
  unfold handle_new_frame
  dsimp only
  rw [if_pos hpos, if_pos ⟨htot, hge⟩]

theorem handle_new_frame_drop (r : BitmapReceiver) (hub : Hub75) (t : ℤ)
    (F T w ht : ℕ) (hpos : 0 < r.chunks_count)
    (hn : ¬(0 < r.total_chunks ∧ r.total_chunks - 2 ≤ r.chunks_count)) :
    handle_new_frame r hub t F T w ht =
      (false,
       { r with stats :=
                  { r.stats with frames_dropped := (r.stats.frames_dropped + 1) % M32 }
                current_frame_id := F
                chunks_count := 0
                total_chunks := T
                width := w
                height := ht },
       hub) := by
  unfold handle_new_frame
  dsimp only
  rw [if_pos hpos, if_neg hn]

theorem process_packet_same (r : BitmapReceiver) (hub : Hub75) (t : ℤ)
    (F i T w ht : ℕ) (px : List ℕ)
    (hcur : F = r.current_frame_id) (hi : i < T) :
    ∃ s2 : BitmapStats,
      process_packet r (mkPacket F i T w ht px) hub t
        = finish_packet { r with stats := s2 } hub t (mkPacket F i T w ht px) i T false := by
  unfold process_packet
  dsimp only
  rw [mkPacket_fid, mkPacket_ci, mkPacket_tot, mkPacket_w, mkPacket_h, mkPacket_length]
  rw [if_neg (by simp only [HEADER_SIZE_eq]; omega)]
  rw [if_neg (by
    rintro (hc | hc)
    · exact hc rfl
    · exact hc rfl)]
  rw [if_neg (by omega)]
  rw [if_neg (by
    intro hne
    exact hne hcur)]
  exact ⟨_, rfl⟩

theorem process_packet_new (r : BitmapReceiver) (hub : Hub75) (t : ℤ)
    (F i T w ht : ℕ) (px : List ℕ)
    (hne : F ≠ r.current_frame_id) (hi : i < T)
    (hdim : ¬(hub.width ≠ 0 ∧ (w ≠ hub.width ∨ w * ht ≠ hub.length))) :
    ∃ s2 : BitmapStats,
      process_packet r (mkPacket F i T w ht px) hub t
        = (let step := handle_new_frame { r with stats := s2 } hub t F T w ht
           finish_packet step.2.1 step.2.2 t (mkPacket F i T w ht px) i T step.1) ∧
      s2.frames_part = r.stats.frames_part ∧
      s2.frames_dropped = r.stats.frames_dropped ∧
      s2.frames_completed = r.stats.frames_completed ∧
      s2.packets_valid = (r.stats.packets_valid + 1) % M32 ∧
      s2.packets_bad_header = r.stats.packets_bad_header := by
  unfold process_packet
  dsimp only
  rw [mkPacket_fid, mkPacket_ci, mkPacket_tot, mkPacket_w, mkPacket_h, mkPacket_length]
  rw [if_neg (by simp only [HEADER_SIZE_eq]; omega)]
  rw [if_neg (by
    rintro (hc | hc)
    · exact hc rfl
    · exact hc rfl)]
  rw [if_neg (by omega)]
  rw [if_pos hne]
  simp only [Hub75.get_img_param]
  rw [if_neg hdim]
  exact ⟨_, rfl, rfl, rfl, rfl, rfl, rfl⟩

theorem step_same (r : BitmapReceiver) (hub : Hub75) (t : ℤ)
    (F i T w ht : ℕ) (px : List ℕ)
    (hcur : F = r.current_frame_id) (hi : i < T) (hi256 : i < 256)
    (hcc : r.chunks_count + 1 < M16) :
    ∃ r', process_packet r (mkPacket F i T w ht px) hub t =
        some ((if i = T - 1 ∨ r.chunks_count + 1 ≥ r.total_chunks then true else false),
              r', writeWords hub (i * PIXELS_PER_CHUNK) (toPixels px)) ∧
      r'.current_frame_id = r.current_frame_id ∧
      r'.total_chunks = r.total_chunks ∧
      r'.width = r.width ∧ r'.height = r.height ∧
      r'.chunks_count = (if i = T - 1 ∨ r.chunks_count + 1 ≥ r.total_chunks then 0
                         else r.chunks_count + 1) := by
  obtain ⟨s2, heq⟩ := process_packet_same r hub t F i T w ht px hcur hi
  have hoff : i * PIXELS_PER_CHUNK ≤ FB_HALF_WORDS := by
    rw [PIXELS_PER_CHUNK_eq, FB_HALF_WORDS_eq]
    omega
  have hmod : (r.chunks_count + 1) % M16 = r.chunks_count + 1 := Nat.mod_eq_of_lt hcc
  by_cases hcomp : i = T - 1 ∨ r.chunks_count + 1 ≥ r.total_chunks
  · rw [heq, finish_packet_complete _ _ _ _ _ _ _ hoff (by
      dsimp only
      rw [hmod]
      exact hcomp)]
    simp only [HEADER_SIZE_eq, mkPacket_drop]
    rw [if_pos hcomp]
    refine ⟨_, rfl, ?_, ?_, ?_, ?_, ?_⟩
    · rw [update_timing_current]
    · rw [update_timing_total_chunks]
    · rw [update_timing_width]
    · rw [update_timing_height]
    · rw [if_pos hcomp, update_timing_chunks_count]
  · rw [heq, finish_packet_incomplete _ _ _ _ _ _ _ hoff (by
      dsimp only
      rw [hmod]
      exact hcomp)]
    simp only [HEADER_SIZE_eq, mkPacket_drop]
    rw [if_neg hcomp]
    refine ⟨_, rfl, rfl, rfl, rfl, rfl, ?_⟩
    rw [if_neg hcomp]
    exact hmod

theorem step_new_empty (r : BitmapReceiver) (hub : Hub75) (t : ℤ)
    (F i T w ht : ℕ) (px : List ℕ)
    (hne : F ≠ r.current_frame_id) (hi : i < T) (hi256 : i < 256)
    (h0 : r.chunks_count = 0)
    (hdim : ¬(hub.width ≠ 0 ∧ (w ≠ hub.width ∨ w * ht ≠ hub.length))) :
    ∃ r', process_packet r (mkPacket F i T w ht px) hub t =
        some ((if i = T - 1 ∨ 1 ≥ T then true else false), r',
              writeWords hub (i * PIXELS_PER_CHUNK) (toPixels px)) ∧
      r'.current_frame_id = F ∧
      r'.total_chunks = T ∧ r'.width = w ∧ r'.height = ht ∧
      r'.chunks_count = (if i = T - 1 ∨ 1 ≥ T then 0 else 1) := by
  obtain ⟨s2, heq, -, -, -, -, -⟩ := process_packet_new r hub t F i T w ht px hne hi hdim
  have hoff : i * PIXELS_PER_CHUNK ≤ FB_HALF_WORDS := by
    rw [PIXELS_PER_CHUNK_eq, FB_HALF_WORDS_eq]
    omega
  rw [heq]
  dsimp only
  rw [handle_new_frame_empty _ _ _ _ _ _ _ (by dsimp only; exact h0)]
  dsimp only
  by_cases hcomp : i = T - 1 ∨ 1 ≥ T
  · rw [finish_packet_complete _ _ _ _ _ _ _ hoff (by
      dsimp only
      rcases hcomp with hc | hc
      · exact Or.inl hc
      · exact Or.inr (by rw [one_mod_M16]; omega))]
    simp only [HEADER_SIZE_eq, mkPacket_drop]
    rw [if_pos hcomp]
    refine ⟨_, rfl, ?_, ?_, ?_, ?_, ?_⟩
    · rw [update_timing_current]
    · rw [update_timing_total_chunks]
    · rw [update_timing_width]
    · rw [update_timing_height]
    · rw [if_pos hcomp, update_timing_chunks_count]
  · rw [finish_packet_incomplete _ _ _ _ _ _ _ hoff (by
      dsimp only
      rintro (hc | hc)
      · exact hcomp (Or.inl hc)
      · rw [one_mod_M16] at hc
        exact hcomp (Or.inr (by omega)))]
    simp only [HEADER_SIZE_eq, mkPacket_drop]
    rw [if_neg hcomp]
    refine ⟨_, rfl, rfl, rfl, rfl, rfl, ?_⟩
    rw [if_neg hcomp]
    rfl

/-! ### Claim C2 (amended): malformed headers -/

/-- Claim C2 (amended): for a payload of at least 10 bytes with the
correct magic whose header has `total = 0` or `chunk_index ≥ total`
(the code has **no** `total > 32` rejection), `process_packet` returns
`false`, leaves the framebuffer and every frame-assembly field (tracked
frame id, received count, expected total, width, height,
last-completion timestamp) unchanged, and among the statistics
increments exactly the bad-header counter and the always-incremented
total-packet counter, while refreshing only the last-observed header
fields. -/
theorem c2_amended_malformed_header (r : BitmapReceiver) (hub : Hub75)
    (data : List ℕ) (t : ℤ)
    (hlen : HEADER_SIZE ≤ data.length)
    (hm0 : data.getD 0 0 = 0x42) (hm1 : data.getD 1 0 = 0x4D)
    (hbad : data.getD 5 0 = 0 ∨ data.getD 4 0 ≥ data.getD 5 0) :
    ∃ r', process_packet r data hub t = some (false, r', hub) ∧
      r'.current_frame_id = r.current_frame_id ∧
      r'.chunks_count = r.chunks_count ∧
      r'.total_chunks = r.total_chunks ∧
      r'.width = r.width ∧
      r'.height = r.height ∧
      r'.last_complete_ms = r.last_complete_ms ∧
      r'.stats.packets_bad_header = (r.stats.packets_bad_header + 1) % M32 ∧
      r'.stats.packets_total = (r.stats.packets_total + 1) % M32 ∧
      r'.stats.packets_valid = r.stats.packets_valid ∧
      r'.stats.packets_bad_magic = r.stats.packets_bad_magic ∧
      r'.stats.frames_completed = r.stats.frames_completed ∧
      r'.stats.frames_part = r.stats.frames_part ∧
      r'.stats.frames_dropped = r.stats.frames_dropped ∧
      r'.stats.chunks_received = r.stats.chunks_received ∧
      r'.stats.frame_interval_ms = r.stats.frame_interval_ms ∧
      r'.stats.avg_interval_ms = r.stats.avg_interval_ms ∧
      r'.stats.jitter_ms = r.stats.jitter_ms ∧
      r'.stats.last_frame_id = data.getD 2 0 + 256 * data.getD 3 0 ∧
      r'.stats.last_chunk_index = data.getD 4 0 ∧
      r'.stats.last_total_chunks = data.getD 5 0 := by
  unfold process_packet
  dsimp only
  rw [if_neg (by omega)]
  rw [if_neg (by
    rintro (hc | hc)
    · exact hc hm0
    · exact hc hm1)]
  rw [if_pos hbad]
  exact ⟨_, rfl, rfl, rfl, rfl, rfl, rfl, rfl, rfl, rfl, rfl, rfl, rfl, rfl, rfl, rfl,
    rfl, rfl, rfl, rfl, rfl, rfl⟩

theorem c2_amended_malformed_header_witness :
    ∃ r', process_packet BitmapReceiver.new (mkPacket 9 4 4 0 0 []) hub0 0
        = some (false, r', hub0) ∧
      r'.current_frame_id = BitmapReceiver.new.current_frame_id ∧
      r'.chunks_count = BitmapReceiver.new.chunks_count ∧
      r'.total_chunks = BitmapReceiver.new.total_chunks ∧
      r'.width = BitmapReceiver.new.width ∧
      r'.height = BitmapReceiver.new.height ∧
      r'.last_complete_ms = BitmapReceiver.new.last_complete_ms ∧
      r'.stats.packets_bad_header = (BitmapReceiver.new.stats.packets_bad_header + 1) % M32 ∧
      r'.stats.packets_total = (BitmapReceiver.new.stats.packets_total + 1) % M32 ∧
      r'.stats.packets_valid = BitmapReceiver.new.stats.packets_valid ∧
      r'.stats.packets_bad_magic = BitmapReceiver.new.stats.packets_bad_magic ∧
      r'.stats.frames_completed = BitmapReceiver.new.stats.frames_completed ∧
      r'.stats.frames_part = BitmapReceiver.new.stats.frames_part ∧
      r'.stats.frames_dropped = BitmapReceiver.new.stats.frames_dropped ∧
      r'.stats.chunks_received = BitmapReceiver.new.stats.chunks_received ∧
      r'.stats.frame_interval_ms = BitmapReceiver.new.stats.frame_interval_ms ∧
      r'.stats.avg_interval_ms = BitmapReceiver.new.stats.avg_interval_ms ∧
      r'.stats.jitter_ms = BitmapReceiver.new.stats.jitter_ms ∧
      r'.stats.last_frame_id
        = (mkPacket 9 4 4 0 0 []).getD 2 0 + 256 * (mkPacket 9 4 4 0 0 []).getD 3 0 ∧
      r'.stats.last_chunk_index = (mkPacket 9 4 4 0 0 []).getD 4 0 ∧
      r'.stats.last_total_chunks = (mkPacket 9 4 4 0 0 []).getD 5 0 :=
  c2_amended_malformed_header BitmapReceiver.new hub0 (mkPacket 9 4 4 0 0 []) 0
    (by decide) (by decide) (by decide) (by decide)

/-! ### Claim C10: dimension-mismatch rejection -/

/-- Claim C10: a well-formed packet for a *new* frame id whose declared
width differs from the configured width, or whose declared pixel count
differs from the configured pixel-count bound, while the configured
width is nonzero, is rejected: the call returns `false`, increments both
the valid-packet and bad-header counters, leaves the framebuffer
untouched (no swap), and leaves every frame-assembly field unchanged. -/
theorem c10_dimension_mismatch (r : BitmapReceiver) (hub : Hub75) (t : ℤ)
    (F i T w ht : ℕ) (px : List ℕ)
    (hne : F ≠ r.current_frame_id) (hi : i < T)
    (hw : hub.width ≠ 0) (hdim : w ≠ hub.width ∨ w * ht ≠ hub.length) :
    ∃ r', process_packet r (mkPacket F i T w ht px) hub t = some (false, r', hub) ∧
      r'.current_frame_id = r.current_frame_id ∧
      r'.chunks_count = r.chunks_count ∧
      r'.total_chunks = r.total_chunks ∧
      r'.width = r.width ∧
      r'.height = r.height ∧
      r'.last_complete_ms = r.last_complete_ms ∧
      r'.stats.packets_valid = (r.stats.packets_valid + 1) % M32 ∧
      r'.stats.packets_bad_header = (r.stats.packets_bad_header + 1) % M32 ∧
      r'.stats.packets_total = (r.stats.packets_total + 1) % M32 ∧
      r'.stats.frames_part = r.stats.frames_part ∧
      r'.stats.frames_dropped = r.stats.frames_dropped ∧
      r'.stats.frames_completed = r.stats.frames_completed ∧
      r'.stats.chunks_received = r.stats.chunks_received := by
  unfold process_packet
  dsimp only
  rw [mkPacket_fid, mkPacket_ci, mkPacket_tot, mkPacket_w, mkPacket_h, mkPacket_length]
  rw [if_neg (by simp only [HEADER_SIZE_eq]; omega)]
  rw [if_neg (by
    rintro (hc | hc)
    · exact hc rfl
    · exact hc rfl)]
  rw [if_neg (by omega)]
  rw [if_pos hne]
  simp only [Hub75.get_img_param]
  rw [if_pos ⟨hw, hdim⟩]
  exact ⟨_, rfl, rfl, rfl, rfl, rfl, rfl, rfl, rfl, rfl, rfl, rfl, rfl, rfl, rfl⟩

/-- A configured framebuffer with a nonzero width field (8) and pixel
bound 32, used to exercise the dimension check. -/
def hubD : Hub75 := ⟨1, 0, fun _ _ => 0, 0, 0, 8, 32⟩

theorem c10_dimension_mismatch_witness :
    ∃ r', process_packet BitmapReceiver.new (mkPacket 2 0 4 8 5 []) hubD 0
        = some (false, r', hubD) ∧
      r'.current_frame_id = BitmapReceiver.new.current_frame_id ∧
      r'.chunks_count = BitmapReceiver.new.chunks_count ∧
      r'.total_chunks = BitmapReceiver.new.total_chunks ∧
      r'.width = BitmapReceiver.new.width ∧
      r'.height = BitmapReceiver.new.height ∧
      r'.last_complete_ms = BitmapReceiver.new.last_complete_ms ∧
      r'.stats.packets_valid = (BitmapReceiver.new.stats.packets_valid + 1) % M32 ∧
      r'.stats.packets_bad_header = (BitmapReceiver.new.stats.packets_bad_header + 1) % M32 ∧
      r'.stats.packets_total = (BitmapReceiver.new.stats.packets_total + 1) % M32 ∧
      r'.stats.frames_part = BitmapReceiver.new.stats.frames_part ∧
      r'.stats.frames_dropped = BitmapReceiver.new.stats.frames_dropped ∧
      r'.stats.frames_completed = BitmapReceiver.new.stats.frames_completed ∧
      r'.stats.chunks_received = BitmapReceiver.new.stats.chunks_received :=
  c10_dimension_mismatch BitmapReceiver.new hubD 0 2 0 4 8 5 []
    (by decide) (by decide) (by decide) (by decide)

/-! ### Claim C3 (amended): duplicates are counted, not idempotent -/

/-- Claim C3 (amended): the receiver records only a **count** of received
chunks, so re-processing the very same chunk (same frame id, same chunk
index) before completion increments the record again: after a packet and
its duplicate the count is `old + 2`, not `old + 1` — duplication is not
idempotent, and (as the counterexample shows) duplicates can drive the
count to the total and force completion while a chunk is still
missing. -/
theorem c3_amended_duplicate_counts (r : BitmapReceiver) (hub : Hub75) (t : ℤ)
    (F i T w ht : ℕ) (px : List ℕ)
    (hcur : F = r.current_frame_id) (hstot : r.total_chunks = T)
    (hi : i < T) (hi256 : i < 256)
    (hni : i ≠ T - 1) (hc2 : r.chunks_count + 2 < T) (hT : T < M16) :
    ∃ r' hub',
      runPackets r hub t [mkPacket F i T w ht px, mkPacket F i T w ht px]
        = some (0, r', hub') ∧
      r'.chunks_count = r.chunks_count + 2 := by
  obtain ⟨r1, heq1, hcur1, htot1, -, -, hcc1⟩ :=
    step_same r hub t F i T w ht px hcur hi hi256 (by omega)
  have hb1 : ¬(i = T - 1 ∨ r.chunks_count + 1 ≥ r.total_chunks) := by
    rintro (hc | hc)
    · exact hni hc
    · omega
  rw [if_neg hb1] at heq1 hcc1
  obtain ⟨r2, heq2, hcur2, htot2, -, -, hcc2⟩ :=
    step_same r1 (writeWords hub (i * PIXELS_PER_CHUNK) (toPixels px)) t F i T w ht px
      (hcur.trans hcur1.symm) hi hi256 (by omega)
  have hb2 : ¬(i = T - 1 ∨ r1.chunks_count + 1 ≥ r1.total_chunks) := by
    rintro (hc | hc)
    · exact hni hc
    · rw [hcc1, htot1] at hc
      omega
  rw [if_neg hb2] at heq2 hcc2
  refine ⟨r2, writeWords (writeWords hub (i * PIXELS_PER_CHUNK) (toPixels px))
      (i * PIXELS_PER_CHUNK) (toPixels px), ?_, ?_⟩
  · simp only [runPackets]
    rw [heq1]
    dsimp only
    rw [heq2]
    rfl
  · rw [hcc2, hcc1]

/-- A receiver tracking frame 1 with 5 expected chunks and none yet
received. -/
def rC3 : BitmapReceiver :=
  { BitmapReceiver.new with current_frame_id := 1, total_chunks := 5 }

theorem c3_amended_duplicate_counts_witness :
    ∃ r' hub',
      runPackets rC3 hub0 0 [mkPacket 1 0 5 0 0 [], mkPacket 1 0 5 0 0 []]
        = some (0, r', hub') ∧
      r'.chunks_count = rC3.chunks_count + 2 :=
  c3_amended_duplicate_counts rC3 hub0 0 1 0 5 0 0 []
    (by decide) (by decide) (by decide) (by decide) (by decide) (by decide) (by decide)

/-! ### Claim C4: new-frame policy (partial swap / drop) -/

theorem handle_new_frame_total (R : BitmapReceiver) (hub : Hub75) (t : ℤ)
    (F T w ht : ℕ) :
    (handle_new_frame R hub t F T w ht).2.1.total_chunks = T := rfl

theorem finish_packet_inv (r : BitmapReceiver) (hub : Hub75) (t : ℤ)
    (data : List ℕ) (ci tot : ℕ) (sw b : Bool) (r' : BitmapReceiver) (hub' : Hub75)
    (heq : finish_packet r hub t data ci tot sw = some (b, r', hub')) :
    r'.total_chunks = r.total_chunks ∧
    (r'.chunks_count = 0 ∨ r'.chunks_count < r.total_chunks) := by
  unfold finish_packet Hub75.write_img_data at heq
  dsimp only at heq
  by_cases hoff : ci * PIXELS_PER_CHUNK ≤ FB_HALF_WORDS
  · rw [if_pos hoff] at heq
    dsimp only at heq
    split at heq
    · simp only [Option.some.injEq, Prod.mk.injEq] at heq
      obtain ⟨-, hr', -⟩ := heq
      subst hr'
      refine ⟨?_, Or.inl ?_⟩
      · rw [update_timing_total_chunks]
      · rw [update_timing_chunks_count]
    · rename_i hcomp
      simp only [Option.some.injEq, Prod.mk.injEq] at heq
      obtain ⟨-, hr', -⟩ := heq
      subst hr'
      refine ⟨rfl, Or.inr ?_⟩
      dsimp only
      omega
  · rw [if_neg hoff] at heq
    exact Option.noConfusion heq

/-- Reachability invariant of the receiver: whenever at least one chunk
has been recorded for the current frame, the stored expected total is
positive.  It holds for `BitmapReceiver.new` and is preserved by every
`process_packet` call, which justifies assuming `1 ≤ total_chunks`
alongside `1 ≤ chunks_count` about any reachable pre-state. -/
theorem receiver_total_inv (r : BitmapReceiver) (data : List ℕ) (hub : Hub75) (t : ℤ)
    (b : Bool) (r' : BitmapReceiver) (hub' : Hub75)
    (hinv : 0 < r.chunks_count → 0 < r.total_chunks)
    (heq : process_packet r data hub t = some (b, r', hub')) :
    (0 < BitmapReceiver.new.chunks_count → 0 < BitmapReceiver.new.total_chunks) ∧
    (0 < r'.chunks_count → 0 < r'.total_chunks) := by
  refine ⟨by intro h; exact absurd h (by norm_num [BitmapReceiver.new]), ?_⟩
  unfold process_packet at heq
  dsimp only at heq
  split at heq
  · simp only [Option.some.injEq, Prod.mk.injEq] at heq
    obtain ⟨-, hr', -⟩ := heq
    subst hr'
    exact hinv
  · split at heq
    · simp only [Option.some.injEq, Prod.mk.injEq] at heq
      obtain ⟨-, hr', -⟩ := heq
      subst hr'
      exact hinv
    · split at heq
      · simp only [Option.some.injEq, Prod.mk.injEq] at heq
        obtain ⟨-, hr', -⟩ := heq
        subst hr'
        exact hinv
      · rename_i hok
        split at heq
        · split at heq
          · simp only [Option.some.injEq, Prod.mk.injEq] at heq
            obtain ⟨-, hr', -⟩ := heq
            subst hr'
            exact hinv
          · obtain ⟨htot', -⟩ := finish_packet_inv _ _ _ _ _ _ _ _ _ _ heq
            intro _
            rw [htot', handle_new_frame_total]
            omega
        · obtain ⟨htot', hcc'⟩ := finish_packet_inv _ _ _ _ _ _ _ _ _ _ heq
          intro hpos
          rw [htot']
          rcases hcc' with h0 | hlt
          · omega
          · omega

/-- Claim C4: when a well-formed packet arrives for a *new* frame id
(dimensions acceptable), and the previous frame had at least one chunk
recorded (so, by `receiver_total_inv`, a positive stored total): if the
recorded count is at least `total − 2`, the call returns `true` (swap
signal), increments the partial-frame counter exactly once, updates the
completion timestamp, and swaps the framebuffer roles; otherwise it
increments the dropped-frame counter exactly once, the previous frame
contributes no swap signal (the call returns `true` only if the new
chunk itself already completes its frame), and the roles are not
swapped.  In both cases the assembly state is reset to the new frame id
with the new header's total, width and height, the received-chunk record
restarting empty before the arriving chunk itself is recorded (final
count 1, or 0 if that chunk already completed). -/
theorem c4_new_frame_policy (r : BitmapReceiver) (hub : Hub75) (t : ℤ)
    (F i T w ht : ℕ) (px : List ℕ)
    (hne : F ≠ r.current_frame_id) (hi : i < T) (hi256 : i < 256)
    (hdim : hub.width = 0 ∨ (w = hub.width ∧ w * ht = hub.length))
    (hprev : 1 ≤ r.chunks_count) (htot : 1 ≤ r.total_chunks) :
    ∃ b r' hub', process_packet r (mkPacket F i T w ht px) hub t = some (b, r', hub') ∧
      (r.total_chunks - 2 ≤ r.chunks_count →
        b = true ∧
        r'.stats.frames_part = (r.stats.frames_part + 1) % M32 ∧
        r'.stats.frames_dropped = r.stats.frames_dropped ∧
        r'.last_complete_ms = t ∧
        hub'.hub75_data = hub.display_buffer ∧
        hub'.display_buffer = hub.hub75_data) ∧
      (¬(r.total_chunks - 2 ≤ r.chunks_count) →
        (b = true ↔ (i = T - 1 ∨ 1 ≥ T)) ∧
        r'.stats.frames_dropped = (r.stats.frames_dropped + 1) % M32 ∧
        r'.stats.frames_part = r.stats.frames_part ∧
        hub'.hub75_data = hub.hub75_data ∧
        hub'.display_buffer = hub.display_buffer) ∧
      r'.current_frame_id = F ∧
      r'.total_chunks = T ∧
      r'.width = w ∧
      r'.height = ht ∧
      r'.chunks_count = (if i = T - 1 ∨ 1 ≥ T then 0 else 1) := by
  have hdim' : ¬(hub.width ≠ 0 ∧ (w ≠ hub.width ∨ w * ht ≠ hub.length)) := by
    rintro ⟨h1, h2⟩
    rcases hdim with h | ⟨hw, hl⟩
    · exact h1 h
    · rcases h2 with h2 | h2
      · exact h2 hw
      · exact h2 hl
  obtain ⟨s2, heq, hsp, hsd, hsc, hsv, hsb⟩ :=
    process_packet_new r hub t F i T w ht px hne hi hdim'
  have hoff : i * PIXELS_PER_CHUNK ≤ FB_HALF_WORDS := by
    rw [PIXELS_PER_CHUNK_eq, FB_HALF_WORDS_eq]
    omega
  by_cases hpart : r.total_chunks - 2 ≤ r.chunks_count
  · rw [handle_new_frame_swap { r with stats := s2 } hub t F T w ht hprev htot hpart] at heq
    dsimp only at heq
    by_cases hb : i = T - 1 ∨ 1 ≥ T
    · rw [finish_packet_complete _ _ _ _ _ _ _ hoff (by
        dsimp only
        rcases hb with hc | hc
        · exact Or.inl hc
        · exact Or.inr (by rw [one_mod_M16]; omega))] at heq
      refine ⟨_, _, _, heq, ?_, fun hcon => absurd hpart hcon, ?_, ?_, ?_, ?_, ?_⟩
      · intro _
        refine ⟨rfl, ?_, ?_, ?_, rfl, rfl⟩
        · simp only [update_timing_frames_part, hsp]
        · simp only [update_timing_frames_dropped, hsd]
        · rw [update_timing_last]
      · simp only [update_timing_current]
      · simp only [update_timing_total_chunks]
      · simp only [update_timing_width]
      · simp only [update_timing_height]
      · rw [if_pos hb]
        simp only [update_timing_chunks_count]
    · rw [finish_packet_incomplete _ _ _ _ _ _ _ hoff (by
        dsimp only
        rintro (hc | hc)
        · exact hb (Or.inl hc)
        · rw [one_mod_M16] at hc
          exact hb (Or.inr (by omega)))] at heq
      refine ⟨_, _, _, heq, ?_, fun hcon => absurd hpart hcon, rfl, rfl, rfl, rfl, ?_⟩
      · intro _
        refine ⟨rfl, ?_, ?_, ?_, rfl, rfl⟩
        · simp only [update_timing_frames_part, hsp]
        · simp only [update_timing_frames_dropped, hsd]
        · simp only [update_timing_last]
      · rw [if_neg hb]
        rfl
  · rw [handle_new_frame_drop { r with stats := s2 } hub t F T w ht hprev (by
      rintro ⟨-, hge⟩
      exact hpart hge)] at heq
    dsimp only at heq
    by_cases hb : i = T - 1 ∨ 1 ≥ T
    · rw [finish_packet_complete _ _ _ _ _ _ _ hoff (by
        dsimp only
        rcases hb with hc | hc
        · exact Or.inl hc
        · exact Or.inr (by rw [one_mod_M16]; omega))] at heq
      refine ⟨_, _, _, heq, fun hcon => absurd hcon hpart, ?_, ?_, ?_, ?_, ?_, ?_⟩
      · intro _
        refine ⟨iff_of_true rfl hb, ?_, ?_, rfl, rfl⟩
        · simp only [update_timing_frames_dropped, hsd]
        · simp only [update_timing_frames_part, hsp]
      · simp only [update_timing_current]
      · simp only [update_timing_total_chunks]
      · simp only [update_timing_width]
      · simp only [update_timing_height]
      · rw [if_pos hb]
        simp only [update_timing_chunks_count]
    · rw [finish_packet_incomplete _ _ _ _ _ _ _ hoff (by
        dsimp only
        rintro (hc | hc)
        · exact hb (Or.inl hc)
        · rw [one_mod_M16] at hc
          exact hb (Or.inr (by omega)))] at heq
      refine ⟨_, _, _, heq, fun hcon => absurd hcon hpart, ?_, rfl, rfl, rfl, rfl, ?_⟩
      · intro _
        refine ⟨iff_of_false (by simp) hb, ?_, ?_, rfl, rfl⟩
        · simp only [hsd]
        · simp only [hsp]
      · rw [if_neg hb]
        rfl

/-- A receiver that recorded chunks 0 and 1 (count 2) of frame 5 with 3
expected chunks — the spec's concrete partial-swap scenario. -/
def rC4 : BitmapReceiver :=
  { BitmapReceiver.new with current_frame_id := 5, chunks_count := 2, total_chunks := 3 }

theorem c4_new_frame_policy_witness :
    ∃ b r' hub', process_packet rC4 (mkPacket 6 0 3 0 0 []) hub0 7 = some (b, r', hub') ∧
      (rC4.total_chunks - 2 ≤ rC4.chunks_count →
        b = true ∧
        r'.stats.frames_part = (rC4.stats.frames_part + 1) % M32 ∧
        r'.stats.frames_dropped = rC4.stats.frames_dropped ∧
        r'.last_complete_ms = 7 ∧
        hub'.hub75_data = hub0.display_buffer ∧
        hub'.display_buffer = hub0.hub75_data) ∧
      (¬(rC4.total_chunks - 2 ≤ rC4.chunks_count) →
        (b = true ↔ (0 = 3 - 1 ∨ 1 ≥ 3)) ∧
        r'.stats.frames_dropped = (rC4.stats.frames_dropped + 1) % M32 ∧
        r'.stats.frames_part = rC4.stats.frames_part ∧
        hub'.hub75_data = hub0.hub75_data ∧
        hub'.display_buffer = hub0.display_buffer) ∧
      r'.current_frame_id = 6 ∧
      r'.total_chunks = 3 ∧
      r'.width = 0 ∧
      r'.height = 0 ∧
      r'.chunks_count = (if 0 = 3 - 1 ∨ 1 ≥ 3 then 0 else 1) :=
  c4_new_frame_policy rC4 hub0 7 6 0 3 0 0 []
    (by decide) (by decide) (by decide) (Or.inl rfl) (by decide) (by decide)

/-! ### Claim C1: full-coverage reassembly -/

theorem nodup_lt_length_le (l : List ℕ) (n : ℕ) (hnd : l.Nodup)
    (hin : ∀ x ∈ l, x < n) : l.length ≤ n := by
  have h1 : l.toFinset.card = l.length := List.toFinset_card_of_nodup hnd
  have h2 : l.toFinset ⊆ Finset.range n := by
    intro x hx
    exact Finset.mem_range.mpr (hin x (List.mem_toFinset.mp hx))
  have h3 := Finset.card_le_card h2
  rw [h1, Finset.card_range] at h3
  exact h3

theorem nodup_lt_missing_length_le (l : List ℕ) (n : ℕ) (hnd : l.Nodup)
    (hin : ∀ x ∈ l, x < n) (hmiss : (n - 1) ∉ l) (hn : 1 ≤ n) :
    l.length + 1 ≤ n := by
  have h1 : l.toFinset.card = l.length := List.toFinset_card_of_nodup hnd
  have h2 : l.toFinset ⊆ (Finset.range n).erase (n - 1) := by
    intro x hx
    refine Finset.mem_erase.mpr ⟨?_, Finset.mem_range.mpr (hin x (List.mem_toFinset.mp hx))⟩
    intro hxe
    exact hmiss (hxe ▸ List.mem_toFinset.mp hx)
  have h3 := Finset.card_le_card h2
  rw [h1, Finset.card_erase_of_mem (Finset.mem_range.mpr (by omega)),
    Finset.card_range] at h3
  omega

/-- Induction workhorse for claim C1: starting from a receiver that is
mid-frame (tracking frame `F` with total `T`, having already processed
the distinct indices `seen`), feeding any further list `rest` of
distinct, not-yet-seen chunks of the same frame reports a completion
exactly on the packet carrying index `T - 1` (if present in `rest`), and
deposits each chunk's pixel words at offset `index * 487` of the (never
swapped) write-side half. -/
theorem c1_run (T w ht : ℕ) (t : ℤ) (F : ℕ) (hT1 : 1 ≤ T) (hT : T ≤ 255) :
    ∀ (rest : List (ℕ × List ℕ)) (seen : List ℕ) (r : BitmapReceiver) (hub : Hub75),
    r.current_frame_id = F →
    r.total_chunks = T →
    ((T - 1) ∈ seen → r.chunks_count + 1 ≤ seen.length) →
    ((T - 1) ∉ seen → r.chunks_count = seen.length) →
    (seen ++ rest.map Prod.fst).Nodup →
    (∀ x ∈ seen ++ rest.map Prod.fst, x < T) →
    hub.length < M32 →
    (∀ p ∈ rest, p.1 * PIXELS_PER_CHUNK + (toPixels p.2).length ≤ hub.length) →
    (∀ p ∈ rest, (toPixels p.2).length ≤ PIXELS_PER_CHUNK) →
    ∃ r' hub',
      runPackets r hub t (rest.map fun p => mkPacket F p.1 T w ht p.2)
        = some ((if (T - 1) ∈ rest.map Prod.fst then 1 else 0), r', hub') ∧
      hub'.hub75_data = hub.hub75_data ∧
      hub'.display_buffer = hub.display_buffer ∧
      hub'.length = hub.length ∧
      (∀ i2 j, (∀ p ∈ rest, ¬(i2 = hub.hub75_data ∧ p.1 * PIXELS_PER_CHUNK ≤ j ∧
            j < p.1 * PIXELS_PER_CHUNK + (toPixels p.2).length)) →
        hub'.bufs i2 j = hub.bufs i2 j) ∧
      (∀ p ∈ rest, ∀ k, k < (toPixels p.2).length →
        hub'.bufs hub.hub75_data (p.1 * PIXELS_PER_CHUNK + k) = (toPixels p.2).getD k 0) := by
  intro rest
  induction rest with
  | nil =>
    intro seen r hub _ _ _ _ _ _ _ _ _
    refine ⟨r, hub, ?_, rfl, rfl, rfl, fun i2 j _ => rfl, fun p hp => absurd hp ?_⟩
    · simp [runPackets]
    · exact List.not_mem_nil p
  | cons p rest ih =>
    rcases p with ⟨i, px⟩
    intro seen r hub hcur htotS hB hA hnd hlt hlen32 hfit hpix
    have hiT : i < T := hlt i (by simp)
    have hi256 : i < 256 := by omega
    have hseen_nd : seen.Nodup := (List.nodup_append.mp hnd).1
    have hseen_lt : ∀ x ∈ seen, x < T := fun x hx => hlt x (List.mem_append_left _ hx)
    have hseen_len : seen.length ≤ T := nodup_lt_length_le seen T hseen_nd hseen_lt
    have hcount_le : r.chunks_count ≤ T := by
      by_cases hm : (T - 1) ∈ seen
      · have := hB hm
        omega
      · have := hA hm
        omega
    have hcc : r.chunks_count + 1 < M16 := by
      have : (65536 : ℕ) = M16 := rfl
      omega
    have hidisj : i ∉ seen := by
      have := List.disjoint_of_nodup_append hnd
      exact fun hmem => this hmem (by simp)
    have hseeni_nd : (seen ++ [i]).Nodup := by
      refine List.Nodup.sublist ?_ hnd
      exact List.Sublist.append_left
        (List.cons_sublist_cons.mpr (List.nil_sublist _)) seen
    have hseeni_lt : ∀ x ∈ seen ++ [i], x < T := by
      intro x hx
      rcases List.mem_append.mp hx with h | h
      · exact hseen_lt x h
      · simp at h
        omega
    -- the count-based completion test can never fire on this packet
    have hnocount : ¬(r.chunks_count + 1 ≥ r.total_chunks) ∨ i = T - 1 := by
      by_cases hiTm : i = T - 1
      · exact Or.inr hiTm
      · refine Or.inl ?_
        rw [htotS]
        by_cases hm : (T - 1) ∈ seen
        · have hb := hB hm
          have : (seen ++ [i]).length ≤ T :=
            nodup_lt_length_le _ T hseeni_nd hseeni_lt
          simp only [List.length_append, List.length_cons, List.length_nil] at this
          omega
        · have ha := hA hm
          have hmiss : (T - 1) ∉ seen ++ [i] := by
            intro hmem
            rcases List.mem_append.mp hmem with h | h
            · exact hm h
            · simp at h
              exact hiTm h.symm
          have := nodup_lt_missing_length_le _ T hseeni_nd hseeni_lt hmiss hT1
          simp only [List.length_append, List.length_cons, List.length_nil] at this
          omega
    obtain ⟨r1, heq, hcur1, htot1, hw1, hh1, hcc1⟩ :=
      step_same r hub t F i T w ht px hcur.symm hiT hi256 hcc
    have hoffF : i * PIXELS_PER_CHUNK + (toPixels px).length ≤ FB_HALF_WORDS := by
      have h1 := hpix ⟨i, px⟩ (by simp)
      rw [PIXELS_PER_CHUNK_eq] at h1 ⊢
      rw [FB_HALF_WORDS_eq]
      simp only at h1
      omega
    have hwcfull : writeCount hub.length (i * PIXELS_PER_CHUNK) (toPixels px).length
        = (toPixels px).length := by
      refine writeCount_of_fits _ _ _ ?_ hlen32 hoffF
      exact hfit ⟨i, px⟩ (by simp)
    -- apply the induction hypothesis to the post-step state
    have hnd' : ((seen ++ [i]) ++ rest.map Prod.fst).Nodup := by
      rw [List.append_assoc]
      exact hnd
    have hlt' : ∀ x ∈ (seen ++ [i]) ++ rest.map Prod.fst, x < T := by
      rw [List.append_assoc]
      exact hlt
    by_cases hiTm : i = T - 1
    · -- this packet completes the frame
      have hor : i = T - 1 ∨ r.chunks_count + 1 ≥ r.total_chunks := Or.inl hiTm
      rw [if_pos hor] at heq hcc1
      have hmem' : (T - 1) ∈ seen ++ [i] := List.mem_append_right _ (by simp [hiTm])
      obtain ⟨r2, hub2, hrun2, hd2, hdb2, hl2, hout2, hin2⟩ :=
        ih (seen ++ [i]) r1 (writeWords hub (i * PIXELS_PER_CHUNK) (toPixels px))
          (hcur1.trans hcur) (htot1.trans htotS)
          (fun _ => by
            rw [hcc1]
            simp only [List.length_append, List.length_cons, List.length_nil]
            omega)
          (fun hc => absurd hmem' hc)
          hnd' hlt'
          (by rw [writeWords_length]; exact hlen32)
          (by
            intro q hq
            rw [writeWords_length]
            exact hfit q (by simp [hq]))
          (fun q hq => hpix q (by simp [hq]))
      have hnin : (T - 1) ∉ rest.map Prod.fst := by
        have hnd2 : (i :: rest.map Prod.fst).Nodup :=
          (List.nodup_append.mp hnd).2.1
        rw [← hiTm]
        exact (List.nodup_cons.mp hnd2).1
      rw [if_neg hnin] at hrun2
      refine ⟨r2, hub2, ?_, ?_, ?_, ?_, ?_, ?_⟩
      · rw [if_pos (by simp [hiTm] : (T - 1) ∈ List.map Prod.fst (⟨i, px⟩ :: rest))]
        simp only [List.map_cons, runPackets]
        rw [heq]
        dsimp only
        rw [hrun2]
        rfl
      · rw [hd2, writeWords_hub75_data]
      · rw [hdb2, writeWords_display_buffer]
      · rw [hl2, writeWords_length]
      · intro i2 j hcond
        rw [hout2 i2 j (by
          intro q hq
          have := hcond q (by simp [hq])
          rw [writeWords_hub75_data]
          exact this)]
        refine writeWords_bufs_out hub _ _ i2 j ?_
        rintro ⟨he, h1, h2⟩
        have := hcond ⟨i, px⟩ (by simp)
        rw [hwcfull] at h2
        exact this ⟨he, h1, h2⟩
      · intro q hq k hk
        rcases List.mem_cons.mp hq with hq | hq
        · subst hq
          dsimp only at hk ⊢
          rw [hout2 hub.hub75_data (i * PIXELS_PER_CHUNK + k) (by
            intro q' hq'
            rw [writeWords_hub75_data]
            rintro ⟨-, hlo, hhi⟩
            have hqne : q'.1 ≠ i := by
              intro hqe
              have hnd2 : (i :: rest.map Prod.fst).Nodup :=
                (List.nodup_append.mp hnd).2.1
              have : q'.1 ∈ rest.map Prod.fst :=
                List.mem_map.mpr ⟨q', hq', rfl⟩
              rw [hqe] at this
              exact (List.nodup_cons.mp hnd2).1 this
            have hq487 := hpix q' (by simp [hq'])
            have hk487 : k < PIXELS_PER_CHUNK := lt_of_lt_of_le hk (hpix ⟨i, px⟩ (by simp))
            rw [PIXELS_PER_CHUNK_eq] at hq487 hk487 hlo hhi
            rcases Nat.lt_or_ge q'.1 i with hlt2 | hgt2
            · omega
            · have : q'.1 ≠ i := hqne
              have hgt3 : i < q'.1 := by omega
              omega)]
          exact writeWords_bufs_in hub _ _ k (by rw [hwcfull]; exact hk)
        · have := hin2 q hq k hk
          rw [writeWords_hub75_data] at this
          exact this
    · -- not the final chunk index: no completion on this packet
      have hnor : ¬(i = T - 1 ∨ r.chunks_count + 1 ≥ r.total_chunks) := by
        rcases hnocount with hn | he
        · rintro (hc | hc)
          · exact hiTm hc
          · exact hn hc
        · exact absurd he hiTm
      rw [if_neg hnor] at heq hcc1
      obtain ⟨r2, hub2, hrun2, hd2, hdb2, hl2, hout2, hin2⟩ :=
        ih (seen ++ [i]) r1 (writeWords hub (i * PIXELS_PER_CHUNK) (toPixels px))
          (hcur1.trans hcur) (htot1.trans htotS)
          (fun hm => by
            have hmI : (T - 1) ∈ seen := by
              rcases List.mem_append.mp hm with h | h
              · exact h
              · simp at h
                exact absurd h.symm hiTm
            have := hB hmI
            rw [hcc1]
            simp only [List.length_append, List.length_cons, List.length_nil]
            omega)
          (fun hm => by
            have hmI : (T - 1) ∉ seen := fun hc => hm (List.mem_append_left _ hc)
            have := hA hmI
            rw [hcc1]
            simp only [List.length_append, List.length_cons, List.length_nil]
            omega)
          hnd' hlt'
          (by rw [writeWords_length]; exact hlen32)
          (by
            intro q hq
            rw [writeWords_length]
            exact hfit q (by simp [hq]))
          (fun q hq => hpix q (by simp [hq]))
      refine ⟨r2, hub2, ?_, ?_, ?_, ?_, ?_, ?_⟩
      · have hiff : ((T - 1) ∈ i :: rest.map Prod.fst)
            ↔ ((T - 1) ∈ rest.map Prod.fst) := by
          simp only [List.mem_cons]
          constructor
          · rintro (h | h)
            · exact absurd h.symm hiTm
            · exact h
          · exact Or.inr
        simp only [List.map_cons, runPackets]
        rw [heq]
        dsimp only
        rw [hrun2]
        by_cases hmm : (T - 1) ∈ rest.map Prod.fst
        · rw [if_pos hmm, if_pos (hiff.mpr hmm)]
          rfl
        · rw [if_neg hmm, if_neg (fun hc => hmm (hiff.mp hc))]
          rfl
      · rw [hd2, writeWords_hub75_data]
      · rw [hdb2, writeWords_display_buffer]
      · rw [hl2, writeWords_length]
      · intro i2 j hcond
        rw [hout2 i2 j (by
          intro q hq
          have := hcond q (by simp [hq])
          rw [writeWords_hub75_data]
          exact this)]
        refine writeWords_bufs_out hub _ _ i2 j ?_
        rintro ⟨he, h1, h2⟩
        have := hcond ⟨i, px⟩ (by simp)
        rw [hwcfull] at h2
        exact this ⟨he, h1, h2⟩
      · intro q hq k hk
        rcases List.mem_cons.mp hq with hq | hq
        · subst hq
          dsimp only at hk ⊢
          rw [hout2 hub.hub75_data (i * PIXELS_PER_CHUNK + k) (by
            intro q' hq'
            rw [writeWords_hub75_data]
            rintro ⟨-, hlo, hhi⟩
            have hqne : q'.1 ≠ i := by
              intro hqe
              have hnd2 : (i :: rest.map Prod.fst).Nodup :=
                (List.nodup_append.mp hnd).2.1
              have : q'.1 ∈ rest.map Prod.fst :=
                List.mem_map.mpr ⟨q', hq', rfl⟩
              rw [hqe] at this
              exact (List.nodup_cons.mp hnd2).1 this
            have hq487 := hpix q' (by simp [hq'])
            have hk487 : k < PIXELS_PER_CHUNK := lt_of_lt_of_le hk (hpix ⟨i, px⟩ (by simp))
            rw [PIXELS_PER_CHUNK_eq] at hq487 hk487 hlo hhi
            rcases Nat.lt_or_ge q'.1 i with hlt2 | hgt2
            · omega
            · have : q'.1 ≠ i := hqne
              have hgt3 : i < q'.1 := by omega
              omega)]
          exact writeWords_bufs_in hub _ _ k (by rw [hwcfull]; exact hk)
        · have := hin2 q hq k hk
          rw [writeWords_hub75_data] at this
          exact this

/-- Running any list of distinct same-frame chunks from a *fresh*
receiver: the first packet triggers the new-frame reset (frame id `F`
differs from the sentinel), and afterwards `c1_run` applies.  Completion
is reported exactly on the packet carrying index `T - 1`, if present. -/
theorem c1_run_fresh (T w ht : ℕ) (t : ℤ) (F : ℕ) (hT1 : 1 ≤ T) (hT : T ≤ 255)
    (hF : F < 65535) (pre : List (ℕ × List ℕ)) (hub : Hub75)
    (hnd : (pre.map Prod.fst).Nodup)
    (hlt : ∀ x ∈ pre.map Prod.fst, x < T)
    (hlen32 : hub.length < M32)
    (hdim : hub.width = 0 ∨ (w = hub.width ∧ w * ht = hub.length))
    (hfit : ∀ p ∈ pre, p.1 * PIXELS_PER_CHUNK + (toPixels p.2).length ≤ hub.length)
    (hpix : ∀ p ∈ pre, (toPixels p.2).length ≤ PIXELS_PER_CHUNK) :
    ∃ r' hub',
      runPackets BitmapReceiver.new hub t (pre.map fun p => mkPacket F p.1 T w ht p.2)
        = some ((if (T - 1) ∈ pre.map Prod.fst then 1 else 0), r', hub') ∧
      hub'.hub75_data = hub.hub75_data ∧
      hub'.display_buffer = hub.display_buffer ∧
      (∀ i2 j, (∀ p ∈ pre, ¬(i2 = hub.hub75_data ∧ p.1 * PIXELS_PER_CHUNK ≤ j ∧
            j < p.1 * PIXELS_PER_CHUNK + (toPixels p.2).length)) →
        hub'.bufs i2 j = hub.bufs i2 j) ∧
      (∀ p ∈ pre, ∀ k, k < (toPixels p.2).length →
        hub'.bufs hub.hub75_data (p.1 * PIXELS_PER_CHUNK + k) = (toPixels p.2).getD k 0) := by
  rcases pre with - | ⟨⟨i, px⟩, rest⟩
  · refine ⟨BitmapReceiver.new, hub, ?_, rfl, rfl, fun i2 j _ => rfl,
      fun p hp => absurd hp (List.not_mem_nil p)⟩
    simp [runPackets]
  · have hiT : i < T := hlt i (by simp)
    have hi256 : i < 256 := by omega
    have hdim' : ¬(hub.width ≠ 0 ∧ (w ≠ hub.width ∨ w * ht ≠ hub.length)) := by
      rintro ⟨h1, h2⟩
      rcases hdim with h | ⟨hw, hl⟩
      · exact h1 h
      · rcases h2 with h2 | h2
        · exact h2 hw
        · exact h2 hl
    obtain ⟨r1, heq, hcur1, htot1, hw1, hh1, hcc1⟩ :=
      step_new_empty BitmapReceiver.new hub t F i T w ht px
        (by
          intro hc
          have : BitmapReceiver.new.current_frame_id = 65535 := rfl
          omega)
        hiT hi256 rfl hdim'
    have hb0 : (i = T - 1 ∨ 1 ≥ T) ↔ i = T - 1 := by
      constructor
      · rintro (h | h)
        · exact h
        · omega
      · exact Or.inl
    have hoffF : i * PIXELS_PER_CHUNK + (toPixels px).length ≤ FB_HALF_WORDS := by
      have h1 := hpix ⟨i, px⟩ (by simp)
      rw [PIXELS_PER_CHUNK_eq] at h1 ⊢
      rw [FB_HALF_WORDS_eq]
      simp only at h1
      omega
    have hwcfull : writeCount hub.length (i * PIXELS_PER_CHUNK) (toPixels px).length
        = (toPixels px).length := by
      refine writeCount_of_fits _ _ _ ?_ hlen32 hoffF
      exact hfit ⟨i, px⟩ (by simp)
    have hndc : (i :: rest.map Prod.fst).Nodup := by
      simpa using hnd
    have hnd' : ([i] ++ rest.map Prod.fst).Nodup := by
      simpa using hndc
    have hlt' : ∀ x ∈ [i] ++ rest.map Prod.fst, x < T := by
      intro x hx
      refine hlt x ?_
      simpa using hx
    by_cases hiTm : i = T - 1
    · have hor : i = T - 1 ∨ 1 ≥ T := Or.inl hiTm
      rw [if_pos hor] at heq hcc1
      obtain ⟨r2, hub2, hrun2, hd2, hdb2, hl2, hout2, hin2⟩ :=
        c1_run T w ht t F hT1 hT rest [i] r1
          (writeWords hub (i * PIXELS_PER_CHUNK) (toPixels px))
          hcur1 htot1
          (fun _ => by
            rw [hcc1]
            simp)
          (fun hc => absurd (by simp [hiTm] : (T - 1) ∈ [i]) hc)
          hnd' hlt'
          (by rw [writeWords_length]; exact hlen32)
          (by
            intro q hq
            rw [writeWords_length]
            exact hfit q (by simp [hq]))
          (fun q hq => hpix q (by simp [hq]))
      have hnin : (T - 1) ∉ rest.map Prod.fst := by
        rw [← hiTm]
        exact (List.nodup_cons.mp hndc).1
      rw [if_neg hnin] at hrun2
      refine ⟨r2, hub2, ?_, ?_, ?_, ?_, ?_⟩
      · rw [if_pos (by simp [hiTm] : (T - 1) ∈ List.map Prod.fst (⟨i, px⟩ :: rest))]
        simp only [List.map_cons, runPackets]
        rw [heq]
        dsimp only
        rw [hrun2]
        rfl
      · rw [hd2, writeWords_hub75_data]
      · rw [hdb2, writeWords_display_buffer]
      · intro i2 j hcond
        rw [hout2 i2 j (by
          intro q hq
          have := hcond q (by simp [hq])
          rw [writeWords_hub75_data]
          exact this)]
        refine writeWords_bufs_out hub _ _ i2 j ?_
        rintro ⟨he, h1, h2⟩
        have := hcond ⟨i, px⟩ (by simp)
        rw [hwcfull] at h2
        exact this ⟨he, h1, h2⟩
      · intro q hq k hk
        rcases List.mem_cons.mp hq with hq | hq
        · subst hq
          dsimp only at hk ⊢
          rw [hout2 hub.hub75_data (i * PIXELS_PER_CHUNK + k) (by
            intro q' hq'
            rw [writeWords_hub75_data]
            rintro ⟨-, hlo, hhi⟩
            have hqne : q'.1 ≠ i := by
              intro hqe
              have : q'.1 ∈ rest.map Prod.fst :=
                List.mem_map.mpr ⟨q', hq', rfl⟩
              rw [hqe] at this
              exact (List.nodup_cons.mp hndc).1 this
            have hq487 := hpix q' (by simp [hq'])
            have hk487 : k < PIXELS_PER_CHUNK := lt_of_lt_of_le hk (hpix ⟨i, px⟩ (by simp))
            rw [PIXELS_PER_CHUNK_eq] at hq487 hk487 hlo hhi
            rcases Nat.lt_or_ge q'.1 i with hlt2 | hgt2
            · omega
            · have hgt3 : i < q'.1 := by omega
              omega)]
          exact writeWords_bufs_in hub _ _ k (by rw [hwcfull]; exact hk)
        · have := hin2 q hq k hk
          rw [writeWords_hub75_data] at this
          exact this
    · have hnor : ¬(i = T - 1 ∨ 1 ≥ T) := fun hc => hiTm (hb0.mp hc)
      rw [if_neg hnor] at heq hcc1
      obtain ⟨r2, hub2, hrun2, hd2, hdb2, hl2, hout2, hin2⟩ :=
        c1_run T w ht t F hT1 hT rest [i] r1
          (writeWords hub (i * PIXELS_PER_CHUNK) (toPixels px))
          hcur1 htot1
          (fun hm => by
            have : T - 1 = i := by simpa using hm
            exact absurd this.symm hiTm)
          (fun _ => by
            rw [hcc1]
            simp)
          hnd' hlt'
          (by rw [writeWords_length]; exact hlen32)
          (by
            intro q hq
            rw [writeWords_length]
            exact hfit q (by simp [hq]))
          (fun q hq => hpix q (by simp [hq]))
      refine ⟨r2, hub2, ?_, ?_, ?_, ?_, ?_⟩
      · have hiff : ((T - 1) ∈ i :: rest.map Prod.fst)
            ↔ ((T - 1) ∈ rest.map Prod.fst) := by
          simp only [List.mem_cons]
          constructor
          · rintro (h | h)
            · exact absurd h.symm hiTm
            · exact h
          · exact Or.inr
        simp only [List.map_cons, runPackets]
        rw [heq]
        dsimp only
        rw [hrun2]
        by_cases hmm : (T - 1) ∈ rest.map Prod.fst
        · rw [if_pos hmm, if_pos (hiff.mpr hmm)]
          rfl
        · rw [if_neg hmm, if_neg (fun hc => hmm (hiff.mp hc))]
          rfl
      · rw [hd2, writeWords_hub75_data]
      · rw [hdb2, writeWords_display_buffer]
      · intro i2 j hcond
        rw [hout2 i2 j (by
          intro q hq
          have := hcond q (by simp [hq])
          rw [writeWords_hub75_data]
          exact this)]
        refine writeWords_bufs_out hub _ _ i2 j ?_
        rintro ⟨he, h1, h2⟩
        have := hcond ⟨i, px⟩ (by simp)
        rw [hwcfull] at h2
        exact this ⟨he, h1, h2⟩
      · intro q hq k hk
        rcases List.mem_cons.mp hq with hq | hq
        · subst hq
          dsimp only at hk ⊢
          rw [hout2 hub.hub75_data (i * PIXELS_PER_CHUNK + k) (by
            intro q' hq'
            rw [writeWords_hub75_data]
            rintro ⟨-, hlo, hhi⟩
            have hqne : q'.1 ≠ i := by
              intro hqe
              have : q'.1 ∈ rest.map Prod.fst :=
                List.mem_map.mpr ⟨q', hq', rfl⟩
              rw [hqe] at this
              exact (List.nodup_cons.mp hndc).1 this
            have hq487 := hpix q' (by simp [hq'])
            have hk487 : k < PIXELS_PER_CHUNK := lt_of_lt_of_le hk (hpix ⟨i, px⟩ (by simp))
            rw [PIXELS_PER_CHUNK_eq] at hq487 hk487 hlo hhi
            rcases Nat.lt_or_ge q'.1 i with hlt2 | hgt2
            · omega
            · have hgt3 : i < q'.1 := by omega
              omega)]
          exact writeWords_bufs_in hub _ _ k (by rw [hwcfull]; exact hk)
        · have := hin2 q hq k hk
          rw [writeWords_hub75_data] at this
          exact this

/-- Claim C1 (amended): for any sequence of well-formed chunks whose
indices cover `0 .. T-1` exactly once (any order), of a single frame id
different from the sentinel `65535`, fed to a fresh receiver with
compatible framebuffer configuration: completion is reported **exactly
once — namely on the packet that carries chunk index `T - 1`** (arrival
order of the other chunks is irrelevant, but completion is keyed to the
final chunk index, not to set coverage), and after all chunks the
write-side half holds each chunk's packed pixels at offset
`index * 487`, everything else (including the whole display-side half)
untouched.  The first conjunct states the per-prefix completion count;
the second the final state of the full run. -/
theorem c1_amended_reassembly (F T w ht : ℕ) (chunks : List (ℕ × List ℕ))
    (hub : Hub75) (t : ℤ)
    (hF : F < 65535) (hT1 : 1 ≤ T) (hT : T ≤ 255)
    (hperm : (chunks.map Prod.fst).Perm (List.range T))
    (hlen32 : hub.length < M32)
    (hdim : hub.width = 0 ∨ (w = hub.width ∧ w * ht = hub.length))
    (hfit : ∀ p ∈ chunks, p.1 * PIXELS_PER_CHUNK + (toPixels p.2).length ≤ hub.length)
    (hpix : ∀ p ∈ chunks, (toPixels p.2).length ≤ PIXELS_PER_CHUNK) :
    (∀ pre post, chunks = pre ++ post →
      ∃ r' hub', runPackets BitmapReceiver.new hub t
          (pre.map fun p => mkPacket F p.1 T w ht p.2)
        = some ((if (T - 1) ∈ pre.map Prod.fst then 1 else 0), r', hub')) ∧
    ∃ r' hub', runPackets BitmapReceiver.new hub t
        (chunks.map fun p => mkPacket F p.1 T w ht p.2) = some (1, r', hub') ∧
      hub'.hub75_data = hub.hub75_data ∧
      hub'.display_buffer = hub.display_buffer ∧
      (∀ i2 j, (∀ p ∈ chunks, ¬(i2 = hub.hub75_data ∧ p.1 * PIXELS_PER_CHUNK ≤ j ∧
            j < p.1 * PIXELS_PER_CHUNK + (toPixels p.2).length)) →
        hub'.bufs i2 j = hub.bufs i2 j) ∧
      (∀ p ∈ chunks, ∀ k, k < (toPixels p.2).length →
        hub'.bufs hub.hub75_data (p.1 * PIXELS_PER_CHUNK + k) = (toPixels p.2).getD k 0) := by
  have hnd : (chunks.map Prod.fst).Nodup := hperm.nodup_iff.mpr (List.nodup_range T)
  have hlt : ∀ x ∈ chunks.map Prod.fst, x < T := by
    intro x hx
    exact List.mem_range.mp (hperm.mem_iff.mp hx)
  constructor
  · intro pre post hsplit
    have hmap : chunks.map Prod.fst = pre.map Prod.fst ++ post.map Prod.fst := by
      rw [hsplit, List.map_append]
    have hndp : (pre.map Prod.fst).Nodup := by
      rw [hmap] at hnd
      exact (List.nodup_append.mp hnd).1
    have hltp : ∀ x ∈ pre.map Prod.fst, x < T := by
      intro x hx
      exact hlt x (by rw [hmap]; exact List.mem_append_left _ hx)
    obtain ⟨r', hub', hrun, -, -, -, -⟩ :=
      c1_run_fresh T w ht t F hT1 hT hF pre hub hndp hltp hlen32 hdim
        (fun p hp => hfit p (by rw [hsplit]; exact List.mem_append_left _ hp))
        (fun p hp => hpix p (by rw [hsplit]; exact List.mem_append_left _ hp))
    exact ⟨r', hub', hrun⟩
  · obtain ⟨r', hub', hrun, hd, hdb, hout, hin⟩ :=
      c1_run_fresh T w ht t F hT1 hT hF chunks hub hnd hlt hlen32 hdim hfit hpix
    have hmem : (T - 1) ∈ chunks.map Prod.fst :=
      hperm.mem_iff.mpr (List.mem_range.mpr (by omega))
    rw [if_pos hmem] at hrun
    exact ⟨r', hub', hrun, hd, hdb, hout, hin⟩

theorem c1_amended_reassembly_witness :
    (∀ pre post, ([((0 : ℕ), [1, 2, 3]), ((1 : ℕ), [4, 5, 6])] : List (ℕ × List ℕ))
        = pre ++ post →
      ∃ r' hub', runPackets BitmapReceiver.new hubW 0
          (pre.map fun p => mkPacket 7 p.1 2 0 0 p.2)
        = some ((if (2 - 1) ∈ pre.map Prod.fst then 1 else 0), r', hub')) ∧
    ∃ r' hub', runPackets BitmapReceiver.new hubW 0
        (([((0 : ℕ), [1, 2, 3]), ((1 : ℕ), [4, 5, 6])] : List (ℕ × List ℕ)).map
          fun p => mkPacket 7 p.1 2 0 0 p.2) = some (1, r', hub') ∧
      hub'.hub75_data = hubW.hub75_data ∧
      hub'.display_buffer = hubW.display_buffer ∧
      (∀ i2 j, (∀ p ∈ ([((0 : ℕ), [1, 2, 3]), ((1 : ℕ), [4, 5, 6])] : List (ℕ × List ℕ)),
            ¬(i2 = hubW.hub75_data ∧ p.1 * PIXELS_PER_CHUNK ≤ j ∧
              j < p.1 * PIXELS_PER_CHUNK + (toPixels p.2).length)) →
        hub'.bufs i2 j = hubW.bufs i2 j) ∧
      (∀ p ∈ ([((0 : ℕ), [1, 2, 3]), ((1 : ℕ), [4, 5, 6])] : List (ℕ × List ℕ)),
        ∀ k, k < (toPixels p.2).length →
          hub'.bufs hubW.hub75_data (p.1 * PIXELS_PER_CHUNK + k) = (toPixels p.2).getD k 0) :=
  c1_amended_reassembly 7 2 0 0 [((0 : ℕ), [1, 2, 3]), ((1 : ℕ), [4, 5, 6])] hubW 0
    (by decide) (by decide) (by decide) (by decide) (by decide) (Or.inl rfl)
    (by decide) (by decide)
